import Mathlib

/-!
Verification development for the compilation-database transformer
(`log_parser.py`, `skiplist_handler.py`, `implicit_compiler_info.py`).
The Python modules are shallowly embedded: tokens are lists of
characters, mutable dictionaries become association lists, Python
exceptions become an `Except` error type, and external effects
(subprocess probes, the file system) are supplied through explicit
oracle parameters.
-/

/-- The Python exceptions relevant to `parse_options` / `parse_unique_log`:
`StopIteration` escapes the flag processors when a parameter-consuming flag
is the last token; `KeyError` is raised for an entry with neither `command`
nor `arguments`; `ValueError` can come from `shlex`; `IndexError` from
`determine_compiler` indexing; `TypeError` completes the set named in the
`except` clause of `parse_unique_log`. -/
inductive PyExc where
  | stopIteration
  | keyError
  | valueError
  | typeError
  | indexError
deriving DecidableEq, Repr

/-- The exception classes caught by the `except (ValueError, KeyError,
TypeError)` clause wrapping the body of `parse_unique_log`
(log_parser.py line 1320).  Any other exception — in particular
`StopIteration` — propagates and terminates the run. -/
def caughtByParseUniqueLog : PyExc → Bool
  | .valueError => true
  | .keyError => true
  | .typeError => true
  | .stopIteration => false
  | .indexError => false

/-- A command-line token, as a list of characters (Python `str`). -/
abbrev Tok := List Char

instance {ε α : Type} [DecidableEq ε] [DecidableEq α] :
    DecidableEq (Except ε α) := fun x y =>
  match x, y with
  | .ok a, .ok b =>
    if h : a = b then isTrue (by rw [h]) else isFalse (by simp [h])
  | .error a, .error b =>
    if h : a = b then isTrue (by rw [h]) else isFalse (by simp [h])
  | .ok _, .error _ => isFalse (by simp)
  | .error _, .ok _ => isFalse (by simp)

/-- Python `str.strip` whitespace set: space, tab, newline, carriage
return, vertical tab, form feed. -/
def pyIsSpace (c : Char) : Bool :=
  c = ' ' ∨ c = '\t' ∨ c = '\n' ∨ c = '\r' ∨ c = '\x0b' ∨ c = '\x0c'

/-- Python `str.strip()` on a character list. -/
def pyStripL (s : List Char) : List Char :=
  ((s.dropWhile pyIsSpace).reverse.dropWhile pyIsSpace).reverse

/-- Split a character list on `/` separators, keeping empty components,
like Python `path.split('/')`. -/
def pySplitSlash : List Char → List (List Char)
  | [] => [[]]
  | c :: rest =>
    let r := pySplitSlash rest
    if c = '/' then [] :: r
    else match r with
      | [] => [[c]]
      | comp :: comps => (c :: comp) :: comps

/-- One step of the component loop of `posixpath.normpath`. -/
def normpathStep (initialSlashes : Nat) (acc : List (List Char)) (comp : List Char) :
    List (List Char) :=
  if comp = [] ∨ comp = ['.'] then acc
  else if comp ≠ ['.', '.'] ∨ (initialSlashes = 0 ∧ acc = []) ∨
      (acc ≠ [] ∧ acc.getLast? = some ['.', '.']) then acc ++ [comp]
  else if acc ≠ [] then acc.dropLast
  else acc

/-- `posixpath.normpath` on a character list: collapse `//`, drop `.`
components, resolve `..`, preserving an initial double slash. -/
def pyNormpathL (p : List Char) : List Char :=
  if p = [] then ['.']
  else
    let initialSlashes : Nat :=
      if p.head? = some '/' then
        if p.take 2 = ['/', '/'] ∧ p.take 3 ≠ ['/', '/', '/'] then 2 else 1
      else 0
    let comps := pySplitSlash p
    let newComps := comps.foldl (normpathStep initialSlashes) []
    let joined := (List.replicate initialSlashes '/') ++
      (List.intercalate ['/'] newComps)
    if joined = [] then ['.'] else joined

/-- `posixpath.join(a, b)` for two components. -/
def pyJoinL (a b : List Char) : List Char :=
  if b.head? = some '/' then b
  else if a = [] ∨ a.getLast? = some '/' then a ++ b
  else a ++ '/' :: b

/-- Index of the last occurrence of `c`, or `none`. -/
def lastIndexOf (c : Char) : List Char → Option Nat
  | [] => none
  | x :: rest =>
    match lastIndexOf c rest with
    | some i => some (i + 1)
    | none => if x = c then some 0 else none

/-- `posixpath.splitext` on a character list: split off the extension at
the last dot of the basename, unless the basename consists only of
leading dots up to that position. -/
def pySplitextL (p : List Char) : List Char × List Char :=
  match lastIndexOf '.' p with
  | none => (p, [])
  | some dotIndex =>
    let sepIndex : Nat := match lastIndexOf '/' p with
      | none => 0
      | some i => i + 1
    if sepIndex ≤ dotIndex ∧
        ((p.drop sepIndex).take (dotIndex - sepIndex)).any (· ≠ '.') then
      (p.take dotIndex, p.drop dotIndex)
    else (p, [])

/-- `posixpath.basename`: everything after the last `/`. -/
def pyBasenameL (p : List Char) : List Char :=
  match lastIndexOf '/' p with
  | none => p
  | some i => p.drop (i + 1)

/-- ASCII lower-casing, as applied by `str.lower()` to extensions. -/
def pyLowerL (s : List Char) : List Char := s.map Char.toLower

/-- The three lexer modes of `shlex` in POSIX mode: outside quotes,
inside single quotes, inside double quotes. -/
inductive SMode where
  | base
  | single
  | double
deriving DecidableEq, Repr

/-- The whitespace set of `shlex` (` \t\r\n`). -/
def pyIsShlexWs (c : Char) : Bool :=
  c = ' ' ∨ c = '\t' ∨ c = '\r' ∨ c = '\n'

/-- The state machine of `shlex.split` (POSIX mode, whitespace splitting,
no comments): whitespace separates tokens, a backslash escapes the next
character, single quotes are verbatim, and inside double quotes a
backslash escapes only `"` and `\`.  A trailing backslash or an unclosed
quote raises `ValueError`, reported here as `Except.error`. -/
def shlexGo : SMode → List Char → List Char → Bool → List (List Char) →
    Except Unit (List (List Char))
  | .base, [], acc, building, out =>
    .ok (out ++ if building then [acc] else [])
  | .base, c :: rest, acc, building, out =>
    if pyIsShlexWs c then
      if building then shlexGo .base rest [] false (out ++ [acc])
      else shlexGo .base rest [] false out
    else if c = '\\' then
      match rest with
      | [] => .error ()
      | d :: rest' => shlexGo .base rest' (acc ++ [d]) true out
    else if c = '\'' then shlexGo .single rest acc true out
    else if c = '"' then shlexGo .double rest acc true out
    else shlexGo .base rest (acc ++ [c]) true out
  | .single, [], _, _, _ => .error ()
  | .single, c :: rest, acc, _, out =>
    if c = '\'' then shlexGo .base rest acc true out
    else shlexGo .single rest (acc ++ [c]) true out
  | .double, [], _, _, _ => .error ()
  | .double, c :: rest, acc, _, out =>
    if c = '"' then shlexGo .base rest acc true out
    else if c = '\\' then
      match rest with
      | [] => .error ()
      | d :: rest' =>
        if d = '"' ∨ d = '\\' then shlexGo .double rest' (acc ++ [d]) true out
        else shlexGo .double rest' (acc ++ ['\\', d]) true out
    else shlexGo .double rest (acc ++ [c]) true out

/-- `shlex.split` on a character list. -/
def pyShlexSplitL (s : List Char) : Except Unit (List (List Char)) :=
  shlexGo .base s [] false []

/-- `shlex.split` on a `String`, returning `String` tokens. -/
def pyShlexSplit (s : String) : Except Unit (List String) :=
  (pyShlexSplitL s.toList).map (·.map List.asString)

/-- Bool test: the literal `l` matched at the start of `t` (semantics of
`re.match` for a plain-text alternative). -/
def litPre (l : String) (t : Tok) : Bool := l.toList.isPrefixOf t

/-- Bool test: the literal `l` matched at the start of `t` and followed
by the regex `$` anchor (end of string, or just before a final newline). -/
def litEnd (l : String) (t : Tok) : Bool :=
  t = l.toList ∨ t = l.toList ++ ['\n']

/-- `IGNORED_OPTIONS_CLANG` compiled alternation (`-Werror`,
`-pedantic-errors`, `-w`), prefix-matched by `re.match`. -/
def ignoredOptionsClangMatch (t : Tok) : Bool :=
  litPre "-Werror" t || litPre "-pedantic-errors" t || litPre "-w" t

/-- The `-g(.+)?$` alternative of `IGNORED_OPTIONS_GCC`: `-g`, then an
optional nonempty run of non-newline characters, then the `$` anchor. -/
def gDebugMatch (t : Tok) : Bool :=
  litPre "-g" t &&
    (let r := t.drop 2
     r.all (· ≠ '\n') ||
       (r.getLast? = some '\n' && r.dropLast.all (· ≠ '\n')))

/-- A `-m(no-)?stem` alternative of `IGNORED_OPTIONS_GCC`, prefix form. -/
def mnoPre (stem : String) (t : Tok) : Bool :=
  litPre ("-m" ++ stem) t || litPre ("-mno-" ++ stem) t

/-- A `-m(no-)?stem$` alternative of `IGNORED_OPTIONS_GCC`. -/
def mnoEnd (stem : String) (t : Tok) : Bool :=
  litEnd ("-m" ++ stem) t || litEnd ("-mno-" ++ stem) t

/-- `IGNORED_OPTIONS_GCC` compiled alternation, alternative by
alternative in source order; `$`-anchored alternatives use `litEnd`,
`(no-)?` groups use `mnoPre`/`mnoEnd`, and `-g(.+)?$` uses
`gDebugMatch`. -/
def ignoredOptionsGccMatch (t : Tok) : Bool :=
  litPre "-fallow-fetchr-insn" t ||
  litPre "-fcall-saved-" t ||
  litPre "-fcond-mismatch" t ||
  litPre "-fconserve-stack" t ||
  litPre "-fcrossjumping" t ||
  litPre "-fcse-follow-jumps" t ||
  litPre "-fcse-skip-blocks" t ||
  litPre "-ffixed-r2" t ||
  litEnd "-ffp" t ||
  litPre "-fgcse-lm" t ||
  litPre "-fhoist-adjacent-loads" t ||
  litPre "-findirect-inlining" t ||
  litPre "-finline-limit" t ||
  litPre "-finline-local-initialisers" t ||
  litPre "-fipa-sra" t ||
  litPre "-fno-aggressive-loop-optimizations" t ||
  litPre "-fno-delete-null-pointer-checks" t ||
  litPre "-fno-jump-table" t ||
  litPre "-fno-keep-static-consts" t ||
  litPre "-fno-strength-reduce" t ||
  litPre "-fno-toplevel-reorder" t ||
  litPre "-fno-unit-at-a-time" t ||
  litPre "-fno-var-tracking-assignments" t ||
  litPre "-fobjc-link-runtime" t ||
  litPre "-fpartial-inlining" t ||
  litPre "-fpeephole2" t ||
  litEnd "-fr" t ||
  litPre "-fregmove" t ||
  litPre "-frename-registers" t ||
  litPre "-freorder-functions" t ||
  litPre "-frerun-cse-after-loop" t ||
  litEnd "-fs" t ||
  litPre "-fsched-spec" t ||
  litPre "-fstack-reuse" t ||
  litPre "-fthread-jumps" t ||
  litPre "-ftree-pre" t ||
  litPre "-ftree-switch-conversion" t ||
  litPre "-ftree-tail-merge" t ||
  mnoPre "abm" t ||
  mnoPre "sdata" t ||
  mnoPre "spe" t ||
  mnoEnd "string" t ||
  mnoPre "dsbt" t ||
  mnoPre "fixed-ssp" t ||
  mnoPre "pointers-to-nested-functions" t ||
  litPre "-mpcrel-func-addr" t ||
  litPre "-maccumulate-outgoing-args" t ||
  litPre "-mcall-aixdesc" t ||
  litPre "-mppa3-addr-bug" t ||
  litPre "-mtraceback=" t ||
  litPre "-mtext=" t ||
  litPre "-misa=" t ||
  litPre "-mfunction-return=" t ||
  litPre "-mindirect-branch-register" t ||
  litPre "-mindirect-branch=" t ||
  litEnd "-mfix-cortex-m3-ldrd" t ||
  litEnd "-mmultiple" t ||
  litEnd "-msahf" t ||
  litEnd "-mthumb-interwork" t ||
  litEnd "-mupdate" t ||
  litPre "-mapcs" t ||
  litEnd "-fno-merge-const-bfstores" t ||
  litEnd "-fno-ipa-sra" t ||
  litEnd "-mno-thumb-interwork" t ||
  litPre "-mno-sched-prolog" t ||
  litEnd "-DNDEBUG" t ||
  litPre "-save-temps" t ||
  litPre "-Werror" t ||
  litPre "-pedantic-errors" t ||
  litPre "-w" t ||
  gDebugMatch t ||
  litPre "-flto" t ||
  litPre "-mxl" t ||
  litPre "-mfloat-gprs" t ||
  litPre "-mabi" t

/-- `IGNORED_PARAM_OPTIONS`: pattern plus number of following parameter
tokens to consume, in the dictionary's insertion order. -/
def ignoredParamOptions : List ((Tok → Bool) × Nat) :=
  [(litPre "-install_name", 1),
   (litPre "-exported_symbols_list", 1),
   (litPre "-current_version", 1),
   (litPre "-compatibility_version", 1),
   (litEnd "-init", 1),
   (litEnd "-e", 1),
   (litPre "-seg1addr", 1),
   (litPre "-bundle_loader", 1),
   (litPre "-multiply_defined", 1),
   (litPre "-sectorder", 3),
   (litEnd "--param", 1),
   (litEnd "-u", 1),
   (litPre "--serialize-diagnostics", 1),
   (litPre "-framework", 1),
   (litPre "-filelist", 1)]

/-- `COMPILE_OPTIONS` compiled alternation, prefix-matched. The
`-O[1-3]` character class is expanded to its three members. -/
def compileOptionsMatch (t : Tok) : Bool :=
  litPre "-nostdinc" t ||
  litPre "-nostdinc++" t ||
  litPre "-pedantic" t ||
  litPre "-O1" t || litPre "-O2" t || litPre "-O3" t ||
  litPre "-Os" t ||
  litPre "-std=" t ||
  litPre "-stdlib=" t ||
  litPre "-f" t ||
  litPre "-m" t ||
  litPre "-Wno-" t ||
  litPre "--sysroot=" t ||
  litPre "--gcc-toolchain=" t

/-- One alternative of a grouped alternation: return the literal as the
matched group when it is a prefix of the token. -/
def comPre (l : String) (t : Tok) : Option Tok :=
  if l.toList.isPrefixOf t then some l.toList else none

/-- `COMPILE_OPTIONS_MERGED.match(t)` with `m.group(0)`: the matched
alternative, tried in the alternation's source order; `-[DIUF]` yields
the dash plus the matched class character. -/
def compileOptionsMergedMatch (t : Tok) : Option Tok :=
  (comPre "--sysroot" t).orElse fun _ =>
  (comPre "--include" t).orElse fun _ =>
  (comPre "-include" t).orElse fun _ =>
  (comPre "-iquote" t).orElse fun _ =>
  ((match t with
    | '-' :: c :: _ =>
      if c = 'D' ∨ c = 'I' ∨ c = 'U' ∨ c = 'F' then some ['-', c] else none
    | _ => none) : Option Tok).orElse fun _ =>
  (comPre "-idirafter" t).orElse fun _ =>
  (comPre "-isystem" t).orElse fun _ =>
  (comPre "-macros" t).orElse fun _ =>
  (comPre "-isysroot" t).orElse fun _ =>
  (comPre "-iprefix" t).orElse fun _ =>
  (comPre "-iwithprefix" t).orElse fun _ =>
  comPre "-iwithprefixbefore" t

/-- `INCLUDE_OPTIONS_MERGED.match(t)` with `m.group(0)`, used by the
intrinsics post-filter. -/
def includeOptionsMergedMatch (t : Tok) : Option Tok :=
  (comPre "-iquote" t).orElse fun _ =>
  ((match t with
    | '-' :: c :: _ =>
      if c = 'I' ∨ c = 'F' then some ['-', c] else none
    | _ => none) : Option Tok).orElse fun _ =>
  (comPre "-isystem" t).orElse fun _ =>
  (comPre "-iprefix" t).orElse fun _ =>
  (comPre "-iwithprefix" t).orElse fun _ =>
  comPre "-iwithprefixbefore" t

/-- Characters of the `[G|T|Q|F|J|P|V|M]` class of
`PRECOMPILATION_OPTION` (the alternation bar is part of the class). -/
def precompClassChar (c : Char) : Bool :=
  c = 'G' ∨ c = '|' ∨ c = 'T' ∨ c = 'Q' ∨ c = 'F' ∨ c = 'J' ∨ c = 'P' ∨
    c = 'V' ∨ c = 'M'

/-- Helper for `PRECOMPILATION_OPTION`: a run of class characters, then
the `$` anchor (end or a single final newline). -/
def precompRest : Tok → Bool
  | [] => true
  | ['\n'] => true
  | c :: rest => precompClassChar c && precompRest rest

/-- `PRECOMPILATION_OPTION` = `-(E|M[G|T|Q|F|J|P|V|M]*)$`. -/
def precompilationOptionMatch (t : Tok) : Bool :=
  litEnd "-E" t ||
  (match t with
   | '-' :: 'M' :: rest => precompRest rest
   | _ => false)

/-- `REPLACE_OPTIONS_MAP`: gcc/g++ target options replaced by a
`-target`-based Clang spelling. -/
def replaceOptionsMap (t : Tok) : Option (List Tok) :=
  if t = "-mips32".toList then
    some ["-target".toList, "mips".toList, "-mips32".toList]
  else if t = "-mips64".toList then
    some ["-target".toList, "mips64".toList, "-mips64".toList]
  else if t = "-mpowerpc".toList then
    some ["-target".toList, "powerpc".toList]
  else if t = "-mpowerpc64".toList then
    some ["-target".toList, "powerpc64".toList]
  else none

/-- `XCLANG_FLAGS_TO_SKIP`. -/
def xclangFlagsToSkip : List Tok :=
  ["-module-file-info".toList, "-S".toList, "-emit-llvm".toList,
   "-emit-llvm-bc".toList, "-emit-llvm-only".toList,
   "-emit-llvm-uselists".toList, "-rewrite-objc".toList]

/-- `flags_with_path` from `__collect_transform_include_opts`. -/
def flagsWithPath : List Tok :=
  ["-I".toList, "-idirafter".toList, "-imultilib".toList,
   "-iquote".toList, "-isysroot".toList, "-isystem".toList,
   "-iwithprefix".toList, "-iwithprefixbefore".toList,
   "-sysroot".toList, "--sysroot".toList]

/-- `SOURCE_EXTENSIONS` from log_parser.py. -/
def sourceExtensions : List Tok :=
  [".c".toList, ".cc".toList, ".cp".toList, ".cpp".toList,
   ".cxx".toList, ".c++".toList, ".o".toList, ".so".toList, ".a".toList]

/-- The extension-to-language mapping of `get_language`. -/
def getLanguageL (ext : Tok) : Option Tok :=
  if ext = ".c".toList then some "c".toList
  else if ext = ".cp".toList then some "c++".toList
  else if ext = ".cpp".toList then some "c++".toList
  else if ext = ".cxx".toList then some "c++".toList
  else if ext = ".txx".toList then some "c++".toList
  else if ext = ".cc".toList then some "c++".toList
  else if ext = ".C".toList then some "c++".toList
  else if ext = ".ii".toList then some "c++".toList
  else if ext = ".m".toList then some "objective-c".toList
  else if ext = ".mm".toList then some "objective-c++".toList
  else none

/-- Modelled from the spec: the `BuildAction` class itself
(`build_action.py`) is not among the sources; spec section 3 lists the
action-type enum `{COMPILE, PREPROCESS, LINK, INFO}`. -/
inductive ActionType where
  | compile
  | preprocess
  | link
  | info
deriving DecidableEq, Repr

/-- Association-list lookup, mirroring Python `dict.get`. -/
def alookup {α β : Type} [DecidableEq α] : List (α × β) → α → Option β
  | [], _ => none
  | (k, v) :: rest, x => if k = x then some v else alookup rest x

/-- Association-list assignment, mirroring Python `dict.__setitem__`:
replace in place, or append a new key at the end (insertion order). -/
def aset {α β : Type} [DecidableEq α] : List (α × β) → α → β → List (α × β)
  | [], k, v => [(k, v)]
  | (k', v') :: rest, k, v =>
    if k' = k then (k', v) :: rest else (k', v') :: aset rest k v

/-- The `details` dictionary built by `parse_options` (and the fields
copied into the returned `BuildAction`).  Per-language values are
association lists keyed by the language string; `target` is keyed by the
(possibly absent) language computed from the source extension, matching
`details['target'][lang] = details['arch']`. -/
structure Details where
  analyzer_options : List Tok
  compiler_includes : List (String × List Tok)
  compiler_standard : List (String × Tok)
  original_command : Tok
  directory : Tok
  output : Tok
  lang : Option Tok
  arch : Tok
  target : List (Option Tok × Tok)
  source : Tok
  action_type : Option ActionType
  compiler : Tok
deriving DecidableEq, Repr, Inhabited

/-- Modelled from the spec: `BuildAction(**details)` copies the
`details` record into an immutable value object with the same fields
(`build_action.py` is not among the sources), so the result type of
`parse_options` is the record itself. -/
abbrev BuildAction := Details

/-- Result of one flag processor: no match (try the next processor),
a match that consumed `consumed` extra parameter tokens, or a Python
exception raised while pulling parameters from the iterator. -/
inductive ProcRes where
  | noMatch
  | res (d : Details) (consumed : Nat)
  | raise (e : PyExc)

/-- The type of a flag processor: current token, remaining tokens,
details under construction. -/
abbrev Proc := Tok → List Tok → Details → ProcRes

/-- `__skip_gcc`: drop tokens matching `IGNORED_OPTIONS_GCC`, and drop
`IGNORED_PARAM_OPTIONS` matches together with the declared number of
following parameter tokens (raising `StopIteration` when the iterator
runs out). -/
def procSkipGcc : Proc := fun item rest d =>
  if ignoredOptionsGccMatch item then .res d 0
  else
    match ignoredParamOptions.find? (fun mp => mp.1 item) with
    | some mp =>
      if rest.length < mp.2 then .raise .stopIteration else .res d mp.2
    | none => .noMatch

/-- `__replace`: substitute via `REPLACE_OPTIONS_MAP`, extending the
analyzer options with the replacement tokens. -/
def procReplace : Proc := fun item _ d =>
  match replaceOptionsMap item with
  | some value => .res { d with analyzer_options := d.analyzer_options ++ value } 0
  | none => .noMatch

/-- `__collect_compile_opts`: collect tokens matching `COMPILE_OPTIONS`
verbatim. -/
def procCollectCompileOpts : Proc := fun item _ d =>
  if compileOptionsMatch item then
    .res { d with analyzer_options := d.analyzer_options ++ [item] } 0
  else .noMatch

/-- `__collect_transform_include_opts`: for a `COMPILE_OPTIONS_MERGED`
match, take the parameter either from the rest of the token (`-Ipath`)
or from the next token (`-I path`); for `flags_with_path` flags strip a
leading `=`, resolve the value against the working directory with
`os.path.normpath(os.path.join(...))`, and store either the re-merged
token or the flag/value pair. -/
def procCollectTransformIncludeOpts : Proc := fun item rest d =>
  match compileOptionsMergedMatch item with
  | none => .noMatch
  | some flag =>
    let step := fun (param : Tok) (together : Bool) (consumed : Nat) =>
      let pt :=
        if flagsWithPath.contains flag then
          let pt0 :=
            if param.head? = some '=' then (param.drop 1, false)
            else (param, together)
          (pyNormpathL (pyJoinL d.directory pt0.1), pt0.2)
        else (param, together)
      if pt.2 then
        ProcRes.res
          { d with analyzer_options := d.analyzer_options ++ [flag ++ pt.1] }
          consumed
      else
        ProcRes.res
          { d with analyzer_options := d.analyzer_options ++ [flag, pt.1] }
          consumed
    if flag.length ≠ item.length then step (item.drop flag.length) true 0
    else
      match rest with
      | [] => .raise .stopIteration
      | p :: _ => step p false 1

/-- `__determine_action_type`: `-c` forces COMPILE (terminal);
`-print-prog-name*` sets INFO and a `PRECOMPILATION_OPTION` match sets
PREPROCESS, each only when COMPILE has not been set. -/
def procDetermineActionType : Proc := fun item _ d =>
  if item = "-c".toList then
    .res { d with action_type := some ActionType.compile } 0
  else if litPre "-print-prog-name" item then
    .res (if d.action_type ≠ some ActionType.compile then
      { d with action_type := some ActionType.info } else d) 0
  else if precompilationOptionMatch item then
    .res (if d.action_type ≠ some ActionType.compile then
      { d with action_type := some ActionType.preprocess } else d) 0
  else .noMatch

/-- `__skip_sources`: any token whose first character is not a dash is
skipped; indexing `item[0]` on an empty token raises `IndexError`. -/
def procSkipSources : Proc := fun item _ d =>
  match item with
  | [] => .raise .indexError
  | c :: _ => if c ≠ '-' then .res d 0 else .noMatch

/-- `__get_arch`: consume `-arch` plus the following architecture
token. -/
def procGetArch : Proc := fun item rest d =>
  if item = "-arch".toList then
    match rest with
    | [] => .raise .stopIteration
    | p :: _ => .res { d with arch := p } 1
  else .noMatch

/-- `__get_language`: consume `-x` plus the following language token, or
a merged `-xlang` token. -/
def procGetLanguage : Proc := fun item rest d =>
  if litPre "-x" item then
    if item = "-x".toList then
      match rest with
      | [] => .raise .stopIteration
      | p :: _ => .res { d with lang := some p } 1
    else .res { d with lang := some (item.drop 2) } 0
  else .noMatch

/-- `__get_output`: consume `-o` plus the following output path. -/
def procGetOutput : Proc := fun item rest d =>
  if item = "-o".toList then
    match rest with
    | [] => .raise .stopIteration
    | p :: _ => .res { d with output := p } 1
  else .noMatch

/-- `__skip_clang`: drop tokens matching `IGNORED_OPTIONS_CLANG`. -/
def procSkipClang : Proc := fun item _ d =>
  if ignoredOptionsClangMatch item then .res d 0 else .noMatch

/-- `__collect_transform_xclang_opts`: consume `-Xclang` plus the next
token; drop the pair when the next token is in `XCLANG_FLAGS_TO_SKIP`,
otherwise keep both. -/
def procCollectTransformXclangOpts : Proc := fun item rest d =>
  if item = "-Xclang".toList then
    match rest with
    | [] => .raise .stopIteration
    | nf :: _ =>
      if xclangFlagsToSkip.contains nf then .res d 1
      else .res
        { d with analyzer_options :=
            d.analyzer_options ++ ["-Xclang".toList, nf] } 1
  else .noMatch

/-- `__collect_clang_compile_opts`: `CLANG_OPTIONS` is `.*`, so every
token is collected. -/
def procCollectClangCompileOpts : Proc := fun item _ d =>
  .res { d with analyzer_options := d.analyzer_options ++ [item] } 0

/-- `gcc_flag_transformers`, in source order. -/
def gccFlagTransformers : List Proc :=
  [procSkipGcc, procReplace, procCollectCompileOpts,
   procCollectTransformIncludeOpts, procDetermineActionType,
   procSkipSources, procGetArch, procGetLanguage, procGetOutput]

/-- `clang_flag_collectors`, in source order. -/
def clangFlagCollectors : List Proc :=
  [procSkipSources, procSkipClang, procCollectTransformXclangOpts,
   procGetOutput, procDetermineActionType, procGetArch, procGetLanguage,
   procCollectTransformIncludeOpts, procCollectClangCompileOpts]

/-- Try the processors in order and stop at the first match; a token no
processor claims is silently dropped (`for … else: pass`). -/
def runProcs : List Proc → Tok → List Tok → Details → ProcRes
  | [], _, _, d => .res d 0
  | p :: ps, item, rest, d =>
    match p item rest d with
    | .noMatch => runProcs ps item rest d
    | r => r

/-- The `for it in OptionIterator(...)` loop: each iteration takes the
next token as the current item and lets the matched processor consume
extra parameter tokens; an exception raised inside aborts the whole
parse.  The fuel argument is the token count, which bounds the number of
iterations, so the zero-fuel branch is unreachable. -/
def runChainF (procs : List Proc) : Nat → List Tok → Details →
    Except PyExc Details
  | _, [], d => .ok d
  | 0, _ :: _, d => .ok d
  | f + 1, t :: rest, d =>
    match runProcs procs t rest d with
    | .raise e => .error e
    | .res d' k => runChainF procs f (rest.drop k) d'
    | .noMatch => runChainF procs f rest d

/-- Run a processor chain over a token list. -/
def runChain (procs : List Proc) (ts : List Tok) (d : Details) :
    Except PyExc Details :=
  runChainF procs ts.length ts d

/-- Python `in` on strings: `sub` occurs contiguously in `t`. -/
def hasInfix (sub : Tok) : Tok → Bool
  | [] => sub.isEmpty
  | c :: rest => sub.isPrefixOf (c :: rest) || hasInfix sub rest

/-- A compilation-database entry: `directory`, `file`, and either a
shell-quoted `command` string or a pre-split `arguments` list. -/
structure CDBEntry where
  directory : String
  file : String
  command : Option String
  arguments : Option (List String)
deriving DecidableEq, Repr, Inhabited

/-- The command extraction at the top of `parse_options`: prefer
`arguments` (joined with spaces for `original_command`), fall back to
shell-splitting `command`, and raise `KeyError` when neither key is
present.  A `shlex` failure is Python's `ValueError`. -/
def getCommand (entry : CDBEntry) : Except PyExc (Tok × List Tok) :=
  match entry.arguments with
  | some args => .ok ((" ".intercalate args).toList, args.map String.toList)
  | none =>
    match entry.command with
    | some cmd =>
      match pyShlexSplitL cmd.toList with
      | .ok toks => .ok (cmd.toList, toks)
      | .error _ => .error .valueError
    | none => .error .keyError

/-- `determine_compiler`: when the first token ends in `ccache` and the
second token is an executable, drop the wrapper; indexing an absent
element raises `IndexError`. -/
def determineCompiler (isExec : Tok → Bool) (cmd : List Tok) :
    Except PyExc Tok :=
  match cmd with
  | [] => .error .indexError
  | c0 :: rest =>
    if "ccache".toList.isSuffixOf c0 then
      match rest with
      | [] => .error .indexError
      | c1 :: _ => if isExec c1 then .ok c1 else .ok c0
    else .ok c0

/-- One per-language record of `ImplicitCompilerInfo.compiler_info`, the
shape shared by freshly probed and file-loaded profiles. -/
structure LangData where
  compiler_includes : List Tok
  compiler_standard : Tok
  target : Tok
deriving DecidableEq, Repr

/-- The external world of `parse_options`: executable lookups, the
compiler-version probe (truthiness of the cached
`get_clangsa_version_func` result), the per-compiler/per-language
implicit-info cache contents as visible after
`ImplicitCompilerInfo.set`'s load-or-probe step (the subprocess probe
and the JSON cache file are external effects), and the file-system
oracles used by the post filters. -/
structure ParseEnv where
  isExec : Tok → Bool
  clangVersion : Tok → Bool
  icInfo : Tok → String → Option LangData
  fileExists : String → Bool
  isDir : Tok → Bool
  noIntrin : Tok → Bool

/-- `set_details_from_ICI('compiler_includes', lang)`: keep an already
truthy parsed value, otherwise copy the cache value when the cache has
this compiler and language. -/
def setIncludesFromICI (env : ParseEnv) (compiler : Tok) (lang : String)
    (d : Details) : Details :=
  match alookup d.compiler_includes lang with
  | some v =>
    if v ≠ [] then d
    else
      match env.icInfo compiler lang with
      | some ld =>
        let m := aset d.compiler_includes lang ld.compiler_includes
        { d with compiler_includes := m }
      | none => d
  | none =>
    match env.icInfo compiler lang with
    | some ld =>
      let m := aset d.compiler_includes lang ld.compiler_includes
      { d with compiler_includes := m }
    | none => d

/-- `set_details_from_ICI('compiler_standard', lang)`. -/
def setStandardFromICI (env : ParseEnv) (compiler : Tok) (lang : String)
    (d : Details) : Details :=
  match alookup d.compiler_standard lang with
  | some v =>
    if v ≠ [] then d
    else
      match env.icInfo compiler lang with
      | some ld =>
        let m := aset d.compiler_standard lang ld.compiler_standard
        { d with compiler_standard := m }
      | none => d
  | none =>
    match env.icInfo compiler lang with
    | some ld =>
      let m := aset d.compiler_standard lang ld.compiler_standard
      { d with compiler_standard := m }
    | none => d

/-- The tail of `ImplicitCompilerInfo.set`: the six
`set_details_from_ICI` calls for the two languages.  The preceding
load-or-probe step fills the process-wide cache from the info file or
from compiler invocations; its net visible content is `env.icInfo`.
The `target` key of `details` is keyed by the detected language of the
action, not by `c`/`c++`, so `set_details_from_ICI('target', lang)`
reads an unset value and writes nothing visible to the claims below;
it is omitted from this embedding of the merge. -/
def iciSet (env : ParseEnv) (compiler : Tok) (d : Details) : Details :=
  let d := setIncludesFromICI env compiler "c" d
  let d := setStandardFromICI env compiler "c" d
  let d := setIncludesFromICI env compiler "c++" d
  let d := setStandardFromICI env compiler "c++" d
  d

/-- Modelled from the spec: the `gcc_toolchain` module is not among the
sources; `toolchain_in_args` reports a custom toolchain override flag
(`--gcc-toolchain=`) found among the analyzer options. -/
def toolchainInArgs (opts : List Tok) : Option Tok :=
  opts.find? (litPre "--gcc-toolchain=")

/-- Lines 1014–1033 of `parse_options`: default the action type to
COMPILE, adopt the entry's `file` as the source (an entry file of `.`
becomes empty), derive the language from the source extension — forcing
LINK when the extension is not recognized — and record the collected
architecture under the detected-language key. -/
def finalizeDetails (file : String) (d : Details) : Details :=
  let d := { d with action_type := some (d.action_type.getD ActionType.compile) }
  let src : Tok := if file = "." then [] else file.toList
  let d := { d with source := src }
  let lang := getLanguageL (pySplitextL src).2
  let d :=
    match lang with
    | some l => if d.lang = none then { d with lang := some l } else d
    | none => { d with action_type := some ActionType.link }
  { d with target := aset d.target lang d.arch }

/-- `__is_not_include_fixed` applied over the per-language implicit
include lists when `keep_gcc_include_fixed` is off. -/
def filterIncludeFixed (d : Details) : Details :=
  { d with compiler_includes :=
      d.compiler_includes.map (fun li =>
        (li.1, li.2.filter (fun dir =>
          pyBasenameL (pyNormpathL dir) ≠ "include-fixed".toList))) }

/-- The analyzer-option rebuild of the intrinsics post-filter: walk the
option list, and drop any `INCLUDE_OPTIONS_MERGED` flag (merged or
flag-plus-value form) whose directory value contains intrinsic headers;
pulling the value of a trailing separate flag off the exhausted iterator
raises `StopIteration`. -/
def rebuildAop (env : ParseEnv) : List Tok → Except PyExc (List Tok)
  | [] => .ok []
  | aopt :: rest =>
    match includeOptionsMergedMatch aopt with
    | none =>
      match rebuildAop env rest with
      | .ok more => .ok (aopt :: more)
      | .error e => .error e
    | some flag =>
      if flag.length ≠ aopt.length then
        let value := aopt.drop flag.length
        match rebuildAop env rest with
        | .ok more =>
          if (env.isDir value && env.noIntrin value) || !env.isDir value then
            .ok (aopt :: more)
          else .ok more
        | .error e => .error e
      else
        match rest with
        | [] => .error .stopIteration
        | value :: rest' =>
          match rebuildAop env rest' with
          | .ok more =>
            if (env.isDir value && env.noIntrin value) || !env.isDir value then
              .ok (aopt :: value :: more)
            else .ok more
          | .error e => .error e

/-- The intrinsics post-filter applied when `keep_gcc_intrin` is off:
implicit include directories containing an `*intrin.h` header are
dropped, and the analyzer options are rebuilt without include flags
pointing at such directories. -/
def filterIntrin (env : ParseEnv) (d : Details) : Except PyExc Details :=
  let ci := d.compiler_includes.map (fun li => (li.1, li.2.filter env.noIntrin))
  match rebuildAop env d.analyzer_options with
  | .ok aop =>
    .ok { d with compiler_includes := ci, analyzer_options := aop }
  | .error e => .error e

/-- Python truthiness of `compiler_info_file` combined with
`os.path.exists`. -/
def cifExists (env : ParseEnv) (cif : Option String) : Bool :=
  match cif with
  | some s => s ≠ "" && env.fileExists s
  | none => false

/-- Lines 1045–1053 of `parse_options`: call
`ImplicitCompilerInfo.set` unless a toolchain override is present or
the compiler itself is Clang-compatible — except that an existing
compiler-info file forces the call. -/
def mergeCompilerInfo (env : ParseEnv) (compiler : Tok) (cif : Option String)
    (usingClang : Bool) (d : Details) : Details :=
  let toolchain := toolchainInArgs d.analyzer_options
  if (toolchain = none ∧ usingClang = false) ∨ cifExists env cif then
    iciSet env compiler d
  else d

/-- The two post filters of `parse_options`, each toggled by its keep
flag. -/
def applyFilters (env : ParseEnv) (kif kin : Bool) (d : Details) :
    Except PyExc Details :=
  let d4 := if kif = false then filterIncludeFixed d else d
  if kin = false then filterIntrin env d4 else .ok d4

/-- `parse_options`: extract and tokenize the command, resolve the
compiler (defaulting the language to C++ for a `++` executable name),
run the chain selected by the compiler-version probe over the tokens
after the executable, finalize action type and language, merge implicit
compiler info unless the compiler is Clang-compatible with no toolchain
override and no info file, and apply the two post filters. -/
def parse_options (env : ParseEnv) (entry : CDBEntry) (cif : Option String)
    (keepGccIncludeFixed keepGccIntrin : Bool) : Except PyExc BuildAction :=
  match getCommand entry with
  | .error e => .error e
  | .ok (origCmd, gccCommand) =>
    match determineCompiler env.isExec gccCommand with
    | .error e => .error e
    | .ok compiler =>
      let d0 : Details :=
        { analyzer_options := []
          compiler_includes := []
          compiler_standard := []
          original_command := origCmd
          directory := entry.directory.toList
          output := []
          lang := if hasInfix "++".toList (pyBasenameL compiler) then
              some "c++".toList else none
          arch := []
          target := []
          source := []
          action_type := none
          compiler := compiler }
      let usingClang := env.clangVersion compiler
      let procs := if usingClang then clangFlagCollectors
        else gccFlagTransformers
      match runChain procs (gccCommand.drop 1) d0 with
      | .error e => .error e
      | .ok d1 =>
        let d2 := finalizeDetails entry.file d1
        let d3 := mergeCompilerInfo env compiler cif usingClang d2
        match applyFilters env keepGccIncludeFixed keepGccIntrin d3 with
        | .error e => .error e
        | .ok d5 => .ok d5

/-- Scan for the closing `]` of a character class, returning the chunk
before it and the remainder after it (the scan of
`fnmatch.translate`). -/
def splitAtClose : List Char → Option (List Char × List Char)
  | [] => none
  | c :: r =>
    if c = ']' then some ([], r)
    else
      match splitAtClose r with
      | some (st, rest) => some (c :: st, rest)
      | none => none

/-- The class scan of `fnmatch.translate` after an opening `[`: an
initial `!` and an initial `]` are part of the class body, then the
body extends to the next `]`; with no closing bracket the `[` is
literal (`none`). -/
def classScan (p : List Char) : Option (List Char × List Char) :=
  let n1 := if p.head? = some '!' then 1 else 0
  let q1 := p.drop n1
  let n2 := if q1.head? = some ']' then 1 else 0
  let q2 := q1.drop n2
  match splitAtClose q2 with
  | some (st, rest) => some (p.take (n1 + n2) ++ st, rest)
  | none => none

/-- Membership of `c` in the (non-negated) body of a regex character
class: `a-b` ranges by code point, other characters literal. -/
def classItemsMatch : List Char → Char → Bool
  | a :: '-' :: b :: rest, c =>
    (a ≤ c ∧ c ≤ b) || classItemsMatch rest c
  | a :: rest, c => a = c || classItemsMatch rest c
  | [], _ => false

/-- Match of one scanned class chunk against a character, handling the
leading `!` negation of `fnmatch`. -/
def stuffMatches (stuff : List Char) (c : Char) : Bool :=
  match stuff with
  | '!' :: items => !(classItemsMatch items c)
  | items => classItemsMatch items c

/-- Worker for the glob matcher, structurally recursive on a fuel
argument; every step consumes at least one unit of the combined
pattern-plus-string length, so fuel `p.length + s.length + 1` never
runs out and the zero-fuel branch is unreachable. -/
def globMatchF : Nat → List Char → List Char → Bool
  | 0, _, _ => false
  | _ + 1, [], s => s.isEmpty
  | f + 1, c :: p, s =>
    if c = '*' then
      globMatchF f p s ||
        (match s with
         | [] => false
         | _ :: s' => globMatchF f (c :: p) s')
    else if c = '?' then
      (match s with
       | [] => false
       | _ :: s' => globMatchF f p s')
    else if c = '[' then
      (match classScan p with
       | none =>
         match s with
         | c' :: s' => if c' = '[' then globMatchF f p s' else false
         | [] => false
       | some (stuff, rest) =>
         match s with
         | [] => false
         | c' :: s' => stuffMatches stuff c' && globMatchF f rest s')
    else
      (match s with
       | c' :: s' => (c' = c) && globMatchF f p s'
       | [] => false)

/-- The glob matcher compiled by `fnmatch.translate` and anchored by
`re.match` at the start and `\Z` at the end (with dot-all): `*` matches
any sequence, `?` any single character, `[...]` a character class with
ranges and `!` negation (an unterminated class leaves `[` literal), and
every other character matches itself. -/
def globMatch (p s : List Char) : Bool :=
  globMatchF (p.length + s.length + 1) p s

/-- `SkipListHandler.__check_line_format`: keep lines of length at least
two that start with `-` or `+`. -/
def checkLineFormat (skipLines : List String) : List String :=
  skipLines.filter (fun l =>
    l.length ≥ 2 && (l.toList.head? = some '-' || l.toList.head? = some '+'))

/-- `SkipListHandler.__gen_regex` for one line: normalize the pattern
after the sign, append `*`, and compile with `fnmatch.translate`. -/
def genRegexPattern (line : String) : List Char :=
  pyNormpathL (pyStripL (line.toList.drop 1)) ++ ['*']

/-- Build the rule list of a `SkipListHandler` from raw skip lines, as
`overwrite_skip_content` does: validate the line format, then pair each
valid line with its compiled pattern. -/
def mkSkipRules (skipLines : List String) : List (String × List Char) :=
  (checkLineFormat skipLines).map (fun l => (l, genRegexPattern l))

/-- `SkipListHandler.should_skip`: the sign of the first rule (in file
order) whose compiled pattern matches the source path decides; no match
means not skipped. -/
def shouldSkip (rules : List (String × List Char)) (source : String) : Bool :=
  match rules.find? (fun r => globMatch r.2 source.toList) with
  | some r => r.1.toList.head? = some '-'
  | none => false

/-- Python string comparison `a < b`: lexicographic by code point, with
a proper prefix ordered first. -/
def pyStrLt : List Char → List Char → Bool
  | [], [] => false
  | [], _ :: _ => true
  | _ :: _, [] => false
  | a :: as, b :: bs =>
    if a < b then true
    else if a = b then pyStrLt as bs
    else false

/-- The fields of a parsed action consulted by the uniqueing loop of
`parse_unique_log`: the dedup key `source`, the alphabetical tie-break
key `output`, and the `original_command` matched by the pattern
policy. -/
structure UAction where
  source : List Char
  output : List Char
  original_command : List Char
deriving DecidableEq, Repr

/-- One iteration of the `SOURCE_ALPHA` branch of `parse_unique_log`
(lines 1284–1290): insert an unseen source, and replace the kept action
when the new action's output sorts strictly earlier. -/
def alphaStep (m : List (List Char × UAction)) (a : UAction) :
    List (List Char × UAction) :=
  match alookup m a.source with
  | none => m ++ [(a.source, a)]
  | some old =>
    if pyStrLt a.output old.output then aset m a.source a else m

/-- The `SOURCE_ALPHA` uniqueing pass over a batch, in batch order. -/
def alphaUnique (as : List UAction) : List (List Char × UAction) :=
  as.foldl alphaStep []

/-- One iteration of the `SOURCE_REGEX` branch of `parse_unique_log`
(lines 1291–1309): insert an unseen source; replace when only the new
command matches the pattern; abort fatally (reporting both original
commands) when both match; keep the first seen otherwise. -/
def regexStep (p : List Char → Bool) (m : List (List Char × UAction))
    (a : UAction) :
    Except (List Char × List Char) (List (List Char × UAction)) :=
  match alookup m a.source with
  | none => .ok (m ++ [(a.source, a)])
  | some old =>
    if p a.original_command && !(p old.original_command) then
      .ok (aset m a.source a)
    else if p a.original_command && p old.original_command then
      .error (old.original_command, a.original_command)
    else .ok m

/-- The `SOURCE_REGEX` uniqueing pass over a batch, in batch order. -/
def regexUnique (p : List Char → Bool) : List UAction →
    List (List Char × UAction) →
    Except (List Char × List Char) (List (List Char × UAction))
  | [], m => .ok m
  | a :: as, m =>
    match regexStep p m a with
    | .error e => .error e
    | .ok m' => regexUnique p as m'

/-- `process_response_file`: tokenize a response file's contents; the
implied source files are the tokens without a leading dash whose
lower-cased extension is a known source/object/archive extension. -/
def processResponseFile (content : String) :
    Except PyExc (List String × List String) :=
  match pyShlexSplit content with
  | .error _ => .error .valueError
  | .ok options =>
    .ok (options, options.filter (fun opt =>
      !(litPre "-" opt.toList) &&
        sourceExtensions.contains (pyLowerL (pySplitextL opt.toList).2)))

/-- The option loop of `extend_compilation_database_entries`: expand
each `@file` token through the response-file oracle (a missing file is
only warned about), collecting the spliced options and implied source
files in order. -/
def processOpts (files : String → Option String) (dir : String) :
    List String → Except PyExc (List String × List String)
  | [] => .ok ([], [])
  | opt :: rest =>
    let contrib : Except PyExc (List String × List String) :=
      if litPre "@" opt.toList then
        let rf := (pyJoinL dir.toList (opt.toList.drop 1)).asString
        match files rf with
        | none => .ok ([], [])
        | some content => processResponseFile content
      else .ok ([opt], [])
    match contrib with
    | .error e => .error e
    | .ok (c, s) =>
      match processOpts files dir rest with
      | .error e => .error e
      | .ok (cs, ss) => .ok (c ++ cs, s ++ ss)

/-- Expansion of a single entry by
`extend_compilation_database_entries`: an entry whose command holds a
response-file marker gets its command tokens expanded; when the declared
file itself holds a marker, the entry is replaced by one copy per
implied source file. -/
def expandEntry (files : String → Option String) (e : CDBEntry) :
    Except PyExc (List CDBEntry) :=
  match e.command with
  | some cmd =>
    if cmd.toList.contains '@' then
      match pyShlexSplit cmd with
      | .error _ => .error .valueError
      | .ok opts =>
        match processOpts files e.directory opts with
        | .error er => .error er
        | .ok (cmdToks, sourceFiles) =>
          let e' := { e with command := some (" ".intercalate cmdToks) }
          if e.file.toList.contains '@' then
            .ok (sourceFiles.map (fun sf => { e' with file := sf }))
          else .ok [e']
    else .ok [e]
  | none => .ok [e]

/-- `extend_compilation_database_entries` over a database, in order. -/
def extendEntries (files : String → Option String) :
    List CDBEntry → Except PyExc (List CDBEntry)
  | [] => .ok []
  | e :: rest =>
    match expandEntry files e with
    | .error er => .error er
    | .ok h =>
      match extendEntries files rest with
      | .error er => .error er
      | .ok t => .ok (h ++ t)

/-- The `VERSION_C` probe ladder of
`ImplicitCompilerInfo.get_compiler_standard`: the marker encoded by the
`#error` chosen from the value of `__STDC_VERSION__` (absent macro and
values below `199409L` both yield the C90 marker). -/
def cMarkerOfStdcVersion : Option Int → String
  | none => "90"
  | some n =>
    if n ≥ 201710 then "17"
    else if n ≥ 201112 then "11"
    else if n ≥ 199901 then "99"
    else if n ≥ 199409 then "94"
    else "90"

/-- The `VERSION_CPP` probe ladder: the marker encoded from
`__cplusplus`. -/
def cppMarkerOfCplusplus : Option Int → String
  | none => "98"
  | some n =>
    if n ≥ 201703 then "17"
    else if n ≥ 201402 then "14"
    else if n ≥ 201103 then "11"
    else "98"

/-- The marker-to-flag mapping at the end of `get_compiler_standard`:
an empty marker stays empty, `94` becomes the named
`-std=iso9899:199409`, and every other marker becomes the GNU-extended
flag for the probe's language. -/
def standardFromMarker (language standard : String) : String :=
  if standard = "" then ""
  else if standard = "94" then "-std=iso9899:199409"
  else "-std=gnu" ++ (if language = "c" then "" else "++") ++ standard

/-- One per-language record of the compiler-info cache as serialized to
`compiler_info.json`: include paths, default standard, target triple. -/
structure LangProfile where
  compiler_includes : List String
  compiler_standard : String
  target : String
deriving DecidableEq, Repr

/-- The include-list transformation of
`ImplicitCompilerInfo.load_compiler_info`: each stored entry is
re-tokenized with `shlex.split`, `-isystem` tokens are dropped, and the
results are concatenated. -/
def loadLangIncludes : List String → Except Unit (List String)
  | [] => .ok []
  | s :: rest =>
    match pyShlexSplit s with
    | .error e => .error e
    | .ok toks =>
      match loadLangIncludes rest with
      | .error e => .error e
      | .ok more => .ok (toks.filter (· ≠ "-isystem") ++ more)

/-- Loading one per-language record back from the serialized cache file
(JSON keeps the stored strings intact, so serialization itself is the
identity on the record): includes go through `loadLangIncludes`,
standard and target are copied. -/
def loadLangProfile (p : LangProfile) : Except Unit LangProfile :=
  match loadLangIncludes p.compiler_includes with
  | .error e => .error e
  | .ok incs =>
    .ok { compiler_includes := incs
          compiler_standard := p.compiler_standard
          target := p.target }

/-- The duplicate pair of the C5 example: two COMPILE actions for
`b.cpp` with outputs `z.o` and `a.o`. -/
def c5BatchW : List UAction :=
  [⟨"b.cpp".toList, "z.o".toList, "g++ -c b.cpp -o z.o".toList⟩,
   ⟨"b.cpp".toList, "a.o".toList, "g++ -c b.cpp -o a.o".toList⟩]

/-- The action the alphabetical policy keeps in the C5 example. -/
def c5KeptW : UAction :=
  ⟨"b.cpp".toList, "a.o".toList, "g++ -c b.cpp -o a.o".toList⟩

/-- The same-source pair of the C6 witness, with a pattern matching
only the second command. -/
def c6AW : UAction :=
  ⟨"b.cpp".toList, "z.o".toList, "g++ -c b.cpp -o z.o".toList⟩

def c6BW : UAction :=
  ⟨"b.cpp".toList, "a.o".toList, "special-g++ -c b.cpp -o a.o".toList⟩

def c6PatW : List Char → Bool := litPre "special"

/-- A closed environment for the witnesses: nothing is executable, no
compiler is Clang-compatible, the implicit-info cache is empty, and no
paths exist on disk. -/
def envTrivial : ParseEnv :=
  { isExec := fun _ => false
    clangVersion := fun _ => false
    icInfo := fun _ _ => none
    fileExists := fun _ => false
    isDir := fun _ => false
    noIntrin := fun _ => true }

/-- The C1 witness entry: `-c` in the token stream, but a declared file
with the unrecognized extension `.xyz`. -/
def c1EntryW : CDBEntry :=
  { directory := "/proj", file := "a.xyz", command := none,
    arguments := some ["gcc", "-c", "a.xyz"] }

/-- The Build Action the C1 witness entry parses to. -/
def c1ActW : BuildAction :=
  match parse_options envTrivial c1EntryW none false false with
  | .ok a => a
  | .error _ => default

/-- An environment whose version probe reports every compiler as
Clang-compatible, selecting the clang flag collectors. -/
def envClangW : ParseEnv :=
  { envTrivial with clangVersion := fun _ => true }

/-- The path-bearing flags that the merged-option matcher recognizes as
themselves (the `flags_with_path` members actually reachable through
`COMPILE_OPTIONS_MERGED` under their own name). -/
def pathMergedFlagsT : List Tok :=
  ["-I".toList, "-idirafter".toList, "-iquote".toList, "-isysroot".toList,
   "-isystem".toList, "-iwithprefix".toList, "--sysroot".toList]

/-- The in-progress details record of the C2 witness. -/
def c2DetailsW : Details :=
  { analyzer_options := [], compiler_includes := [], compiler_standard := [],
    original_command := [], directory := "/proj".toList, output := [],
    lang := none, arch := [], target := [], source := [],
    action_type := none, compiler := "gcc".toList }

/-- The response-file marker test of
`extend_compilation_database_entries`: `'@' in entry['command']` (an
entry without a `command` key is never expanded). -/
def entryHasMarker (e : CDBEntry) : Bool :=
  match e.command with
  | some c => c.toList.contains '@'
  | none => false

/-- The response-file oracle of the C7 witness: only `/proj/opts.rsp`
exists, holding `-DFOO main.cpp`. -/
def c7FilesW : String → Option String := fun p =>
  if p = "/proj/opts.rsp" then some "-DFOO main.cpp" else none

/-- The C7 witness entry, whose declared file is the response-file
reference itself. -/
def c7EntryW : CDBEntry :=
  { directory := "/proj", file := "@opts.rsp",
    command := some "gcc @opts.rsp", arguments := none }

/-- The single entry the C7 witness expands to. -/
def c7ExpandedW : CDBEntry :=
  { directory := "/proj", file := "main.cpp",
    command := some "gcc -DFOO main.cpp", arguments := none }

theorem loadLangIncludes_id (l : List String)
    (h : ∀ s ∈ l, pyShlexSplit s = .ok [s] ∧ s ≠ "-isystem") :
    loadLangIncludes l = .ok l := by
  induction l with
  | nil => rfl
  | cons s rest ih =>
    have hs := h s (by simp)
    have ht := ih (fun x hx => h x (by simp [hx]))
    simp only [loadLangIncludes, hs.1, ht]
    simp [List.filter, hs.2]

/-- C8 counterexample: the special case of `get_compiler_standard` is
the C94 marker, not the oldest C revision.  The oldest detected C
revision (absent or pre-1994 `__STDC_VERSION__`, marker `90`) maps to
the numeric GNU flag `-std=gnu90`, while the named standard
`-std=iso9899:199409` is produced for marker `94`. -/
theorem claim_C8_counterexample :
    cMarkerOfStdcVersion none = "90" ∧
    standardFromMarker "c" (cMarkerOfStdcVersion none) = "-std=gnu" ++ "90" ∧
    standardFromMarker "c" "94" = "-std=iso9899:199409" := by
  refine ⟨rfl, ?_, ?_⟩ <;> decide

/-- C8 (amended): every detected standard marker maps to the
GNU-extended flag (`-std=gnu<ver>` for C, `-std=gnu++<ver>` for C++),
with one special case: the C94 revision — detected for
`199409L ≤ __STDC_VERSION__ < 199901L`, not the oldest revision C90 —
maps to the named flag `-std=iso9899:199409`. -/
theorem claim_C8 :
    (∀ v : Option Int,
      standardFromMarker "c" (cMarkerOfStdcVersion v) =
        if cMarkerOfStdcVersion v = "94" then "-std=iso9899:199409"
        else "-std=gnu" ++ cMarkerOfStdcVersion v) ∧
    (∀ v : Option Int,
      standardFromMarker "c++" (cppMarkerOfCplusplus v) =
        "-std=gnu++" ++ cppMarkerOfCplusplus v) := by
  constructor
  · intro v
    rcases v with _ | n
    · decide
    · simp only [cMarkerOfStdcVersion]
      split_ifs <;> simp_all [standardFromMarker]
  · intro v
    rcases v with _ | n
    · decide
    · simp only [cppMarkerOfCplusplus]
      split_ifs <;> simp_all [standardFromMarker]

/-- C4 counterexample: probing yields plain include paths, but loading
the serialized cache re-tokenizes each stored entry with `shlex.split`,
so a per-language record holding an include path that contains a space
does not survive the round trip — the path splits into two entries. -/
theorem claim_C4_counterexample :
    loadLangProfile
        ⟨["/opt/my tools/include"], "-std=gnu11", "x86_64-linux-gnu"⟩ ≠
      .ok ⟨["/opt/my tools/include"], "-std=gnu11", "x86_64-linux-gnu"⟩ := by
  decide

/-- C4 (amended): serializing a probed per-language record and loading
it back yields the identical record provided every stored include path
is a single shell token (no whitespace, quote, or escape characters, so
`shlex.split` returns it unchanged) and is not itself the literal
`-isystem`; the standard and target fields always round-trip. -/
theorem claim_C4 (p : LangProfile)
    (h : ∀ s ∈ p.compiler_includes, pyShlexSplit s = .ok [s] ∧ s ≠ "-isystem") :
    loadLangProfile p = .ok p := by
  cases p with
  | mk incs std tgt =>
    simp only [loadLangProfile, loadLangIncludes_id incs h]

theorem claim_C4_witness :
    (∀ s ∈ (["/usr/include", "/usr/local/include"] : List String),
        pyShlexSplit s = .ok [s] ∧ s ≠ "-isystem") ∧
    loadLangProfile
        ⟨["/usr/include", "/usr/local/include"], "-std=gnu11",
          "x86_64-linux-gnu"⟩ =
      .ok ⟨["/usr/include", "/usr/local/include"], "-std=gnu11",
          "x86_64-linux-gnu"⟩ :=
  ⟨by decide, claim_C4 _ (by decide)⟩

/-- C3: `should_skip` returns the sign of the first rule, in file
order, whose compiled pattern matches the candidate path, and `False`
when no rule matches; on the two-line skip list whose first rule is the
minus rule for `/vendor/*` and whose second is the plus rule for
`/vendor/keep.c`, the first rule is the one that matches
`/vendor/keep.c`, so the path is skipped even though a later, more
specific plus rule also matches. -/
theorem claim_C3 (skipLines : List String) (path : String) :
    (∀ r, (mkSkipRules skipLines).find?
        (fun r => globMatch r.2 path.toList) = some r →
      shouldSkip (mkSkipRules skipLines) path =
        decide (r.1.toList.head? = some '-')) ∧
    ((mkSkipRules skipLines).find?
        (fun r => globMatch r.2 path.toList) = none →
      shouldSkip (mkSkipRules skipLines) path = false) ∧
    (mkSkipRules ["-/vendor/*", "+/vendor/keep.c"]).find?
        (fun r => globMatch r.2 "/vendor/keep.c".toList) =
      some ("-/vendor/*", genRegexPattern "-/vendor/*") ∧
    shouldSkip (mkSkipRules ["-/vendor/*", "+/vendor/keep.c"])
        "/vendor/keep.c" = true := by
  refine ⟨?_, ?_, by decide, by decide⟩
  · intro r h
    simp only [shouldSkip, h]
  · intro h
    simp only [shouldSkip, h]

theorem claim_C3_witness :
    shouldSkip (mkSkipRules ["-/vendor/*", "+/vendor/keep.c"])
        "/vendor/keep.c" =
      decide (("-/vendor/*" : String).toList.head? = some '-') :=
  (claim_C3 ["-/vendor/*", "+/vendor/keep.c"] "/vendor/keep.c").1
    ("-/vendor/*", genRegexPattern "-/vendor/*") (by decide)

theorem alookup_append_single {α β : Type} [DecidableEq α]
    (m : List (α × β)) (k s : α) (v : β) :
    alookup (m ++ [(k, v)]) s =
      match alookup m s with
      | some w => some w
      | none => if k = s then some v else none := by
  induction m with
  | nil => simp [alookup]
  | cons kv rest ih =>
    by_cases h : kv.1 = s <;> simp [alookup, h, ih]

theorem alookup_aset {α β : Type} [DecidableEq α]
    (m : List (α × β)) (k s : α) (v : β) :
    alookup (aset m k v) s = if k = s then some v else alookup m s := by
  induction m with
  | nil => simp [aset, alookup]
  | cons kv rest ih =>
    rcases kv with ⟨k0, v0⟩
    by_cases h1 : k0 = k
    · subst h1
      by_cases h2 : k0 = s
      · subst h2
        simp [aset, alookup]
      · simp [aset, alookup, h2]
    · by_cases h2 : k0 = s
      · subst h2
        have hks : ¬ k = k0 := fun he => h1 he.symm
        simp [aset, alookup, h1, hks]
      · simp [aset, alookup, h1, h2, ih]

theorem pyStrLt_irrefl (a : List Char) : pyStrLt a a = false := by
  induction a with
  | nil => rfl
  | cons c rest ih => simp [pyStrLt, ih]

theorem pyStrLt_trans {a b c : List Char} (h1 : pyStrLt a b = true)
    (h2 : pyStrLt b c = true) : pyStrLt a c = true := by
  induction a generalizing b c with
  | nil =>
    cases b with
    | nil => simp [pyStrLt] at h1
    | cons y ys =>
      cases c with
      | nil => simp [pyStrLt] at h2
      | cons z zs => simp [pyStrLt]
  | cons x xs ih =>
    cases b with
    | nil => simp [pyStrLt] at h1
    | cons y ys =>
      cases c with
      | nil => simp [pyStrLt] at h2
      | cons z zs =>
        simp only [pyStrLt] at h1 h2 ⊢
        by_cases hxy : x < y
        · by_cases hyz : y < z
          · simp [lt_trans hxy hyz]
          · by_cases hyzq : y = z
            · subst hyzq
              simp [hxy]
            · simp [hyz, hyzq] at h2
        · by_cases hxyq : x = y
          · subst hxyq
            simp only [lt_irrefl, if_false, if_neg, ite_true, if_pos rfl] at h1
            by_cases hxz : x < z
            · simp [hxz]
            · by_cases hxzq : x = z
              · subst hxzq
                simp only [lt_irrefl, if_false, if_neg, ite_true,
                  if_pos rfl] at h2 ⊢
                have h1' : pyStrLt xs ys = true := by
                  by_cases hxx : x < x
                  · exact absurd hxx (lt_irrefl x)
                  · simpa [hxx] using h1
                have h2' : pyStrLt ys zs = true := by
                  by_cases hxx : x < x
                  · exact absurd hxx (lt_irrefl x)
                  · simpa [hxx] using h2
                simp [ih h1' h2']
              · simp [hxz, hxzq] at h2
          · simp [hxy, hxyq] at h1

theorem pyStrLt_total {a b : List Char} (h : pyStrLt a b = false) :
    a = b ∨ pyStrLt b a = true := by
  induction a generalizing b with
  | nil =>
    cases b with
    | nil => exact Or.inl rfl
    | cons y ys => simp [pyStrLt] at h
  | cons x xs ih =>
    cases b with
    | nil => exact Or.inr rfl
    | cons y ys =>
      by_cases hxy : x < y
      · simp [pyStrLt, hxy] at h
      · by_cases hxyq : x = y
        · subst hxyq
          have h' : pyStrLt xs ys = false := by
            simpa [pyStrLt, hxy] using h
          rcases ih h' with he | hlt
          · exact Or.inl (by rw [he])
          · exact Or.inr (by simp [pyStrLt, hxy, hlt])
        · have hyx : y < x := by
            rcases lt_trichotomy x y with h1 | h1 | h1
            · exact absurd h1 hxy
            · exact absurd h1 hxyq
            · exact h1
          exact Or.inr (by simp [pyStrLt, hyx])

theorem alookup_alphaStep_ne (m : List (List Char × UAction)) (a : UAction)
    (s : List Char) (h : ¬ a.source = s) :
    alookup (alphaStep m a) s = alookup m s := by
  unfold alphaStep
  rcases hm : alookup m a.source with _ | old
  · rw [alookup_append_single]
    rcases alookup m s with _ | w
    · simp [h]
    · rfl
  · by_cases hlt : pyStrLt a.output old.output
    · simp [hlt, alookup_aset, h]
    · simp [hlt]

theorem alookup_alphaStep_self (m : List (List Char × UAction)) (a : UAction) :
    alookup (alphaStep m a) a.source =
      some (match alookup m a.source with
        | none => a
        | some old => if pyStrLt a.output old.output then a else old) := by
  unfold alphaStep
  rcases hm : alookup m a.source with _ | old
  · rw [alookup_append_single, hm]
    simp
  · by_cases hlt : pyStrLt a.output old.output
    · simp [hlt, alookup_aset]
    · simp [hlt, hm]

theorem alphaFold_spec (as : List UAction) (acc : List (List Char × UAction))
    (s : List Char) (a : UAction)
    (h : alookup (List.foldl alphaStep acc as) s = some a) :
    (alookup acc s = some a ∨ (a ∈ as ∧ a.source = s)) ∧
    (∀ b ∈ as, b.source = s → pyStrLt b.output a.output = false) ∧
    (∀ old, alookup acc s = some old → pyStrLt old.output a.output = false) := by
  induction as generalizing acc with
  | nil =>
    simp only [List.foldl_nil] at h
    refine ⟨Or.inl h, by simp, ?_⟩
    intro old hold
    rw [h] at hold
    cases hold
    exact pyStrLt_irrefl a.output
  | cons x as' ih =>
    simp only [List.foldl_cons] at h
    obtain ⟨hor, hmin, hacc⟩ := ih (alphaStep acc x) h
    by_cases hx : x.source = s
    · subst hx
      rcases hm : alookup acc x.source with _ | old
      · have hstep : alookup (alphaStep acc x) x.source = some x := by
          rw [alookup_alphaStep_self, hm]
        refine ⟨?_, ?_, ?_⟩
        · rcases hor with hl | hr
          · rw [hstep] at hl
            cases hl
            exact Or.inr ⟨by simp, rfl⟩
          · exact Or.inr ⟨by simp [hr.1], hr.2⟩
        · intro b hb hbs
          rcases List.mem_cons.mp hb with hbx | hbin
          · subst hbx
            exact hacc b hstep
          · exact hmin b hbin hbs
        · intro old' hold'
          cases hold'
      · by_cases hlt : pyStrLt x.output old.output
        · have hstep : alookup (alphaStep acc x) x.source = some x := by
            rw [alookup_alphaStep_self, hm]
            simp [hlt]
          refine ⟨?_, ?_, ?_⟩
          · rcases hor with hl | hr
            · rw [hstep] at hl
              cases hl
              exact Or.inr ⟨by simp, rfl⟩
            · exact Or.inr ⟨by simp [hr.1], hr.2⟩
          · intro b hb hbs
            rcases List.mem_cons.mp hb with hbx | hbin
            · subst hbx
              exact hacc b hstep
            · exact hmin b hbin hbs
          · intro old' hold'
            have he : old' = old := by
              injection hold' with h2
              exact h2.symm
            subst he
            have hxa := hacc x hstep
            by_cases hoa : pyStrLt old'.output a.output
            · exfalso
              have := pyStrLt_trans hlt hoa
              rw [this] at hxa
              cases hxa
            · simpa using hoa
        · have hstep : alookup (alphaStep acc x) x.source = some old := by
            rw [alookup_alphaStep_self, hm]
            simp [hlt]
          refine ⟨?_, ?_, ?_⟩
          · rcases hor with hl | hr
            · rw [hstep] at hl
              cases hl
              exact Or.inl rfl
            · exact Or.inr ⟨List.mem_cons_of_mem x hr.1, hr.2⟩
          · intro b hb hbs
            rcases List.mem_cons.mp hb with hbx | hbin
            · subst hbx
              have hoa := hacc old hstep
              by_cases hba : pyStrLt b.output a.output
              · exfalso
                have hlt' : pyStrLt b.output old.output = false := by
                  simpa using hlt
                rcases pyStrLt_total hlt' with he | holtb
                · rw [he] at hba
                  rw [hba] at hoa
                  cases hoa
                · have := pyStrLt_trans holtb hba
                  rw [this] at hoa
                  cases hoa
              · simpa using hba
            · exact hmin b hbin hbs
          · intro old' hold'
            cases hold'
            exact hacc old hstep
    · have hne : alookup (alphaStep acc x) s = alookup acc s :=
        alookup_alphaStep_ne acc x s hx
      refine ⟨?_, ?_, ?_⟩
      · rcases hor with hl | hr
        · exact Or.inl (hne ▸ hl)
        · exact Or.inr ⟨List.mem_cons_of_mem x hr.1, hr.2⟩
      · intro b hb hbs
        rcases List.mem_cons.mp hb with hbx | hbin
        · subst hbx
          exact absurd hbs hx
        · exact hmin b hbin hbs
      · intro old hold
        exact hacc old (by rw [hne]; exact hold)

/-- C5: under the alphabetical uniqueing policy, the action kept for a
source path is in the batch, has that source, and no action in the
batch with the same source has an output path that sorts strictly
earlier — the kept action's declared output is the lexicographic
minimum. -/
theorem claim_C5 (batch : List UAction) (s : List Char) (a : UAction)
    (h : alookup (alphaUnique batch) s = some a) :
    a ∈ batch ∧ a.source = s ∧
      ∀ b ∈ batch, b.source = s → pyStrLt b.output a.output = false := by
  obtain ⟨hor, hmin, _⟩ := alphaFold_spec batch [] s a h
  rcases hor with hl | hr
  · simp [alookup] at hl
  · exact ⟨hr.1, hr.2, hmin⟩

theorem claim_C5_witness :
    alookup (alphaUnique c5BatchW) ("b.cpp".toList) = some c5KeptW ∧
    (c5KeptW ∈ c5BatchW ∧ c5KeptW.source = "b.cpp".toList ∧
      ∀ b ∈ c5BatchW, b.source = "b.cpp".toList →
        pyStrLt b.output c5KeptW.output = false) :=
  ⟨by decide, claim_C5 c5BatchW ("b.cpp".toList) c5KeptW (by decide)⟩

/-- C6: under the pattern uniqueing policy, for a pair of actions with
the same source path processed in order: when exactly one original
command matches the pattern the matching action is kept; when both
match the run aborts fatally carrying both original commands; when
neither matches the first-seen action is kept and the run continues. -/
theorem claim_C6 (p : List Char → Bool) (a b : UAction)
    (hs : a.source = b.source) :
    ((p b.original_command = true ∧ p a.original_command = false) →
      regexUnique p [a, b] [] = .ok [(a.source, b)]) ∧
    ((p a.original_command = true ∧ p b.original_command = false) →
      regexUnique p [a, b] [] = .ok [(a.source, a)]) ∧
    ((p a.original_command = true ∧ p b.original_command = true) →
      regexUnique p [a, b] [] =
        .error (a.original_command, b.original_command)) ∧
    ((p a.original_command = false ∧ p b.original_command = false) →
      regexUnique p [a, b] [] = .ok [(a.source, a)]) := by
  refine ⟨?_, ?_, ?_, ?_⟩ <;> intro hp <;>
    simp [regexUnique, regexStep, alookup, aset, ← hs, hp.1, hp.2]

theorem claim_C6_witness :
    c6AW.source = c6BW.source ∧
    (c6PatW c6BW.original_command = true ∧
        c6PatW c6AW.original_command = false) ∧
    regexUnique c6PatW [c6AW, c6BW] [] = .ok [(c6AW.source, c6BW)] :=
  ⟨by decide, by decide,
    (claim_C6 c6PatW c6AW c6BW (by decide)).1 (by decide)⟩

theorem setIncludesFromICI_action_type (env : ParseEnv) (compiler : Tok)
    (lang : String) (d : Details) :
    (setIncludesFromICI env compiler lang d).action_type = d.action_type := by
  unfold setIncludesFromICI
  repeat' split
  all_goals rfl

theorem setStandardFromICI_action_type (env : ParseEnv) (compiler : Tok)
    (lang : String) (d : Details) :
    (setStandardFromICI env compiler lang d).action_type = d.action_type := by
  unfold setStandardFromICI
  repeat' split
  all_goals rfl

theorem iciSet_action_type (env : ParseEnv) (compiler : Tok) (d : Details) :
    (iciSet env compiler d).action_type = d.action_type := by
  unfold iciSet
  rw [setStandardFromICI_action_type, setIncludesFromICI_action_type,
    setStandardFromICI_action_type, setIncludesFromICI_action_type]

theorem mergeCompilerInfo_action_type (env : ParseEnv) (compiler : Tok)
    (cif : Option String) (usingClang : Bool) (d : Details) :
    (mergeCompilerInfo env compiler cif usingClang d).action_type =
      d.action_type := by
  unfold mergeCompilerInfo
  dsimp only
  split
  · exact iciSet_action_type env compiler d
  · rfl

theorem filterIncludeFixed_action_type (d : Details) :
    (filterIncludeFixed d).action_type = d.action_type := rfl

theorem filterIntrin_action_type {env : ParseEnv} {d d' : Details}
    (h : filterIntrin env d = .ok d') : d'.action_type = d.action_type := by
  unfold filterIntrin at h
  rcases hr : rebuildAop env d.analyzer_options with _ | aop <;> rw [hr] at h
  · cases h
  · cases h
    rfl

theorem applyFilters_action_type {env : ParseEnv} {kif kin : Bool}
    {d d' : Details} (h : applyFilters env kif kin d = .ok d') :
    d'.action_type = d.action_type := by
  unfold applyFilters at h
  cases kin <;> cases kif <;> simp at h
  · rw [filterIntrin_action_type h]
    rfl
  · rw [filterIntrin_action_type h]
  · rw [← h]
    rfl
  · rw [← h]

theorem finalizeDetails_action_type (file : String) (d : Details) :
    (finalizeDetails file d).action_type =
      match getLanguageL (pySplitextL (if file = "." then []
          else file.toList)).2 with
      | none => some ActionType.link
      | some _ => some (d.action_type.getD ActionType.compile) := by
  unfold finalizeDetails
  rcases hl : getLanguageL (pySplitextL (if file = "." then []
      else file.toList)).2 with _ | l <;>
    simp only [String.toList] at hl ⊢ <;> rw [hl]
  split
  all_goals first
  | rfl
  | (split <;> rfl)
  | simp_all

/-- C1: when `parse_options` returns a Build Action for an entry whose
declared source file's extension is not a recognized source extension,
the action type is LINK — the extension check after chain processing
overrides a COMPILE set by `-c` — and the action type is never `None`
after assembly. -/
theorem claim_C1 (env : ParseEnv) (entry : CDBEntry) (cif : Option String)
    (kif kin : Bool) (a : BuildAction)
    (h : parse_options env entry cif kif kin = .ok a) :
    a.action_type ≠ none ∧
    (getLanguageL (pySplitextL (if entry.file = "." then []
        else entry.file.toList)).2 = none →
      a.action_type = some ActionType.link) := by
  unfold parse_options at h
  split at h
  · cases h
  · split at h
    · cases h
    · dsimp only at h
      split at h
      · cases h
      · split at h
        · cases h
        · rename_i d1 hfil
          injection h with ha
          subst ha
          have h1 := applyFilters_action_type hfil
          rw [mergeCompilerInfo_action_type, finalizeDetails_action_type]
            at h1
          refine ⟨?_, ?_⟩
          · rw [h1]
            split <;> simp
          · intro hnone
            rw [h1, hnone]

theorem claim_C1_witness :
    parse_options envTrivial c1EntryW none false false = .ok c1ActW ∧
    getLanguageL (pySplitextL (if c1EntryW.file = "." then []
        else c1EntryW.file.toList)).2 = none ∧
    c1ActW.action_type ≠ none ∧
    c1ActW.action_type = some ActionType.link :=
  ⟨by decide, by decide,
    (claim_C1 envTrivial c1EntryW none false false c1ActW (by decide)).1,
    (claim_C1 envTrivial c1EntryW none false false c1ActW (by decide)).2
      (by decide)⟩

/-- C9: when the token stream ends with a flag that consumes a following
parameter token — `-o`, `-arch`, `-x`, a separate-argument path flag
like `-I` (gcc chain), or `-Xclang` (clang chain) — with nothing after
it, `parse_options` does not return a Build Action: the processor's
extra advance raises `StopIteration`, and `StopIteration` is not among
the exception classes `parse_unique_log` catches, so the run terminates
with an unhandled error. -/
theorem claim_C9 :
    (∀ dir file : String,
      parse_options envTrivial ⟨dir, file, none, some ["gcc", "-o"]⟩ none
        false false = .error .stopIteration) ∧
    (∀ dir file : String,
      parse_options envTrivial ⟨dir, file, none, some ["gcc", "-arch"]⟩ none
        false false = .error .stopIteration) ∧
    (∀ dir file : String,
      parse_options envTrivial ⟨dir, file, none, some ["gcc", "-x"]⟩ none
        false false = .error .stopIteration) ∧
    (∀ dir file : String,
      parse_options envTrivial ⟨dir, file, none, some ["gcc", "-I"]⟩ none
        false false = .error .stopIteration) ∧
    (∀ dir file : String,
      parse_options envClangW ⟨dir, file, none, some ["clang", "-Xclang"]⟩
        none false false = .error .stopIteration) ∧
    caughtByParseUniqueLog PyExc.stopIteration = false := by
  refine ⟨?_, ?_, ?_, ?_, ?_, rfl⟩ <;> intro dir file <;> rfl

theorem includeOptsBothForms (F p : Tok) (rest : List Tok) (d : Details)
    (hm1 : compileOptionsMergedMatch (F ++ p) = some F)
    (hm2 : compileOptionsMergedMatch F = some F)
    (hpath : flagsWithPath.contains F = true)
    (hp : p ≠ []) (he : ¬ p.head? = some '=') :
    procCollectTransformIncludeOpts (F ++ p) rest d =
      .res { d with analyzer_options := d.analyzer_options ++
          [F ++ pyNormpathL (pyJoinL d.directory p)] } 0 ∧
    procCollectTransformIncludeOpts F (p :: rest) d =
      .res { d with analyzer_options := d.analyzer_options ++
          [F, pyNormpathL (pyJoinL d.directory p)] } 1 := by
  have hlen : F.length ≠ (F ++ p).length := by
    simp only [List.length_append]
    cases p with
    | nil => exact absurd rfl hp
    | cons c cs => simp
  constructor
  · unfold procCollectTransformIncludeOpts
    rw [hm1]
    dsimp only
    rw [if_pos hlen, List.drop_left, hpath]
    simp only [he, if_neg, if_false, ite_false, if_pos rfl]
    simp [he]
  · unfold procCollectTransformIncludeOpts
    rw [hm2]
    dsimp only
    have hmem : F ∈ flagsWithPath := by simpa using hpath
    rw [if_neg (by simp), hpath]
    simp [hmem, he]

/-- C2 counterexample: the concatenated and two-token forms of `-I`
with an absolute path do not produce the same stored analyzer-option
sequence — the concatenated form stores the single merged token, the
two-token form stores flag and path separately. -/
theorem claim_C2_counterexample :
    (parse_options envTrivial ⟨"/proj", "a.c", none,
        some ["gcc", "-I/abs", "-c", "a.c"]⟩ none false false).map
        (fun a => a.analyzer_options) = .ok ["-I/abs".toList] ∧
    (parse_options envTrivial ⟨"/proj", "a.c", none,
        some ["gcc", "-I", "/abs", "-c", "a.c"]⟩ none false false).map
        (fun a => a.analyzer_options) = .ok ["-I".toList, "/abs".toList] ∧
    (["-I/abs".toList] : List Tok) ≠ ["-I".toList, "/abs".toList] :=
  ⟨by decide, by decide, by decide⟩

theorem includeOptsEqForms (F p1 : Tok) (rest : List Tok) (d : Details)
    (hm1 : compileOptionsMergedMatch (F ++ ('=' :: p1)) = some F)
    (hm2 : compileOptionsMergedMatch F = some F)
    (hpath : flagsWithPath.contains F = true) :
    procCollectTransformIncludeOpts (F ++ ('=' :: p1)) rest d =
      .res { d with analyzer_options := d.analyzer_options ++
          [F, pyNormpathL (pyJoinL d.directory p1)] } 0 ∧
    procCollectTransformIncludeOpts F (('=' :: p1) :: rest) d =
      .res { d with analyzer_options := d.analyzer_options ++
          [F, pyNormpathL (pyJoinL d.directory p1)] } 1 := by
  have hlen : F.length ≠ (F ++ ('=' :: p1)).length := by simp
  constructor
  · unfold procCollectTransformIncludeOpts
    rw [hm1]
    dsimp only
    rw [if_pos hlen, List.drop_left, hpath]
    simp
  · unfold procCollectTransformIncludeOpts
    rw [hm2]
    dsimp only
    rw [if_neg (by simp), hpath]
    simp

/-- C2 (amended): for every path-bearing flag `F` the merged-option
matcher recognizes under its own name: for every nonempty path `p` not
starting with `=`, both forms resolve the same normalized path
`normpath(join(directory, p))` — for an already absolute `p` that is
`normpath p` — but the stored shapes differ: the concatenated token
`Fp` is stored as the single token `F ++ normalized`, while the
two-token form `F p` is stored as the two tokens `F, normalized`;
whereas for a path beginning with `=` the leading `=` is stripped and
both forms are stored identically, as the two tokens `F, normalized`
of the remainder. -/
theorem claim_C2 (F : Tok) (hF : F ∈ pathMergedFlagsT) (p : Tok)
    (rest : List Tok) (d : Details) :
    (p ≠ [] → ¬ p.head? = some '=' →
      procCollectTransformIncludeOpts (F ++ p) rest d =
        .res { d with analyzer_options := d.analyzer_options ++
            [F ++ pyNormpathL (pyJoinL d.directory p)] } 0 ∧
      procCollectTransformIncludeOpts F (p :: rest) d =
        .res { d with analyzer_options := d.analyzer_options ++
            [F, pyNormpathL (pyJoinL d.directory p)] } 1) ∧
    (∀ p1, p = '=' :: p1 →
      procCollectTransformIncludeOpts (F ++ p) rest d =
        .res { d with analyzer_options := d.analyzer_options ++
            [F, pyNormpathL (pyJoinL d.directory p1)] } 0 ∧
      procCollectTransformIncludeOpts F (p :: rest) d =
        .res { d with analyzer_options := d.analyzer_options ++
            [F, pyNormpathL (pyJoinL d.directory p1)] } 1) := by
  constructor
  · intro hp he
    fin_cases hF <;>
      exact includeOptsBothForms _ p rest d
        (by simp [compileOptionsMergedMatch, comPre, List.isPrefixOf])
        (by decide) (by decide) hp he
  · intro p1 hpe
    subst hpe
    fin_cases hF <;>
      exact includeOptsEqForms _ p1 rest d
        (by simp [compileOptionsMergedMatch, comPre, List.isPrefixOf])
        (by decide) (by decide)

theorem claim_C2_witness :
    ("-I".toList ∈ pathMergedFlagsT) ∧
    (procCollectTransformIncludeOpts ("-I".toList ++ "/abs".toList) []
        c2DetailsW =
      .res { c2DetailsW with analyzer_options :=
          c2DetailsW.analyzer_options ++
            ["-I".toList ++
              pyNormpathL (pyJoinL c2DetailsW.directory "/abs".toList)] } 0 ∧
     procCollectTransformIncludeOpts "-I".toList ("/abs".toList :: [])
        c2DetailsW =
      .res { c2DetailsW with analyzer_options :=
          c2DetailsW.analyzer_options ++
            ["-I".toList,
              pyNormpathL (pyJoinL c2DetailsW.directory "/abs".toList)] } 1) ∧
    (procCollectTransformIncludeOpts ("-I".toList ++ "=/abs".toList) []
        c2DetailsW =
      .res { c2DetailsW with analyzer_options :=
          c2DetailsW.analyzer_options ++
            ["-I".toList,
              pyNormpathL (pyJoinL c2DetailsW.directory "/abs".toList)] } 0 ∧
     procCollectTransformIncludeOpts "-I".toList ("=/abs".toList :: [])
        c2DetailsW =
      .res { c2DetailsW with analyzer_options :=
          c2DetailsW.analyzer_options ++
            ["-I".toList,
              pyNormpathL (pyJoinL c2DetailsW.directory "/abs".toList)] } 1) :=
  ⟨by decide,
    (claim_C2 ("-I".toList) (by decide) ("/abs".toList) [] c2DetailsW).1
      (by decide) (by decide),
    (claim_C2 ("-I".toList) (by decide) ("=/abs".toList) [] c2DetailsW).2
      ("/abs".toList) (by decide)⟩

theorem expandEntry_nomarker (files : String → Option String) (e : CDBEntry)
    (h : entryHasMarker e = false) : expandEntry files e = .ok [e] := by
  unfold entryHasMarker at h
  unfold expandEntry
  rcases hc : e.command with _ | cmd
  · rfl
  · rw [hc] at h
    simp only at h
    have h2 : ¬ '@' ∈ cmd.data := by simpa [String.toList] using h
    simp [h2]

/-- C7: `extend_compilation_database_entries` leaves entries whose
command contains no response-file marker unchanged and in their
original position, and an entry whose declared file contains a marker
expands into one new entry per implied source file of the expanded
response files, each otherwise identical: the witness entry whose file
is `@opts.rsp`, with the response file containing `-DFOO main.cpp`,
becomes exactly one entry with file `main.cpp` and `-DFOO` merged into
its command. -/
theorem claim_C7 :
    (∀ (files : String → Option String) (pre : List CDBEntry)
        (e : CDBEntry) (post : List CDBEntry), entryHasMarker e = false →
      extendEntries files (pre ++ e :: post) =
        (match extendEntries files pre, extendEntries files post with
         | .ok l1, .ok l2 => .ok (l1 ++ e :: l2)
         | .error er, _ => .error er
         | .ok _, .error er => .error er)) ∧
    extendEntries c7FilesW [c7EntryW] = .ok [c7ExpandedW] := by
  constructor
  · intro files pre e post hm
    induction pre with
    | nil =>
      have hstep : extendEntries files (e :: post) =
          match expandEntry files e with
          | .error er => .error er
          | .ok h1 =>
            match extendEntries files post with
            | .error er => .error er
            | .ok t => .ok (h1 ++ t) := rfl
      rw [List.nil_append, hstep, expandEntry_nomarker files e hm]
      rcases hp : extendEntries files post with er | t <;> simp [extendEntries]
    | cons x pre' ih =>
      have hstep : ∀ (l : List CDBEntry),
          extendEntries files (x :: l) =
            match expandEntry files x with
            | .error er => .error er
            | .ok h1 =>
              match extendEntries files l with
              | .error er => .error er
              | .ok t => .ok (h1 ++ t) := fun l => rfl
      rw [List.cons_append, hstep (pre' ++ e :: post), hstep pre', ih]
      rcases hx : expandEntry files x with er | hxl <;>
        rcases hp1 : extendEntries files pre' with er1 | l1 <;>
        rcases hp2 : extendEntries files post with er2 | l2 <;>
        simp [List.append_assoc]
  · decide

theorem splitAtClose_length {q st rest : List Char}
    (h : splitAtClose q = some (st, rest)) : rest.length < q.length := by
  induction q generalizing st rest with
  | nil => simp [splitAtClose] at h
  | cons c r ih =>
    by_cases hc : c = ']'
    · simp [splitAtClose, hc] at h
      simp [← h.2]
    · simp only [splitAtClose, if_neg hc] at h
      rcases hr : splitAtClose r with _ | ⟨st0, rest0⟩ <;> rw [hr] at h
      · simp at h
      · simp at h
        have := ih hr
        rw [← h.2]
        simp
        omega

theorem classScan_length {p st rest : List Char}
    (h : classScan p = some (st, rest)) : rest.length < p.length := by
  unfold classScan at h
  rcases hr : splitAtClose ((p.drop (if p.head? = some '!' then 1 else 0)).drop
      (if (p.drop (if p.head? = some '!' then 1 else 0)).head? = some ']'
        then 1 else 0)) with _ | ⟨st0, rest0⟩ <;> simp only [hr] at h
  · simp at h
  · simp at h
    have hlen := splitAtClose_length hr
    rw [← h.2]
    have h1 : ((p.drop (if p.head? = some '!' then 1 else 0)).drop
        (if (p.drop (if p.head? = some '!' then 1 else 0)).head? = some ']'
          then 1 else 0)).length ≤ p.length := by
      simp [List.length_drop]
    omega

theorem globMatchF_nil_eq (f : Nat) (s : List Char) :
    globMatchF (f + 1) [] s = s.isEmpty := rfl

theorem globMatchF_cons_eq (f : Nat) (c : Char) (q s : List Char) :
    globMatchF (f + 1) (c :: q) s =
      (if c = '*' then
        globMatchF f q s ||
          (match s with
           | [] => false
           | _ :: s' => globMatchF f (c :: q) s')
      else if c = '?' then
        (match s with
         | [] => false
         | _ :: s' => globMatchF f q s')
      else if c = '[' then
        (match classScan q with
         | none =>
           match s with
           | c' :: s' => if c' = '[' then globMatchF f q s' else false
           | [] => false
         | some (stuff, rest) =>
           match s with
           | [] => false
           | c' :: s' => stuffMatches stuff c' && globMatchF f rest s')
      else
        (match s with
         | c' :: s' => (c' = c) && globMatchF f q s'
         | [] => false)) := rfl

theorem globMatchF_succ : ∀ (f : Nat) (p s : List Char),
    p.length + s.length < f → globMatchF (f + 1) p s = globMatchF f p s := by
  intro f
  induction f with
  | zero => intro p s h; omega
  | succ k ih =>
    intro p s h
    cases p with
    | nil => rfl
    | cons c q =>
      rw [globMatchF_cons_eq (k + 1), globMatchF_cons_eq k]
      by_cases hstar : c = '*'
      · rw [if_pos hstar, if_pos hstar, ih q s (by simp at h; omega)]
        cases s with
        | nil => rfl
        | cons c1 s' =>
          rw [show (match (c1 :: s' : List Char) with
              | [] => false
              | _ :: s' => globMatchF (k + 1) (c :: q) s') =
            globMatchF (k + 1) (c :: q) s' from rfl]
          rw [show (match (c1 :: s' : List Char) with
              | [] => false
              | _ :: s' => globMatchF k (c :: q) s') =
            globMatchF k (c :: q) s' from rfl]
          rw [ih (c :: q) s' (by simp at h ⊢; omega)]
      · rw [if_neg hstar, if_neg hstar]
        by_cases hq : c = '?'
        · rw [if_pos hq, if_pos hq]
          cases s with
          | nil => rfl
          | cons c1 s' =>
            rw [show (match (c1 :: s' : List Char) with
                | [] => false
                | _ :: s' => globMatchF (k + 1) q s') =
              globMatchF (k + 1) q s' from rfl]
            rw [show (match (c1 :: s' : List Char) with
                | [] => false
                | _ :: s' => globMatchF k q s') =
              globMatchF k q s' from rfl]
            rw [ih q s' (by simp at h ⊢; omega)]
        · rw [if_neg hq, if_neg hq]
          by_cases hb : c = '['
          · rw [if_pos hb, if_pos hb]
            rcases hscan : classScan q with _ | ⟨stuff, rest⟩
            · cases s with
              | nil => rfl
              | cons c1 s' =>
                dsimp only
                by_cases hc1 : c1 = '['
                · rw [if_pos hc1, if_pos hc1,
                    ih q s' (by simp at h ⊢; omega)]
                · rw [if_neg hc1, if_neg hc1]
            · cases s with
              | nil => rfl
              | cons c1 s' =>
                dsimp only
                have hrest := classScan_length hscan
                rw [ih rest s' (by simp at h ⊢; omega)]
          · rw [if_neg hb, if_neg hb]
            cases s with
            | nil => rfl
            | cons c1 s' =>
              rw [show (match (c1 :: s' : List Char) with
                  | c' :: s' => (c' = c : Bool) && globMatchF (k + 1) q s'
                  | [] => false) =
                ((c1 = c : Bool) && globMatchF (k + 1) q s') from rfl]
              rw [show (match (c1 :: s' : List Char) with
                  | c' :: s' => (c' = c : Bool) && globMatchF k q s'
                  | [] => false) =
                ((c1 = c : Bool) && globMatchF k q s') from rfl]
              rw [ih q s' (by simp at h ⊢; omega)]

theorem globMatchF_stable : ∀ (k f : Nat) (p s : List Char),
    p.length + s.length < f → globMatchF (f + k) p s = globMatchF f p s := by
  intro k
  induction k with
  | zero => intro f p s _; rfl
  | succ k ih =>
    intro f p s h
    have h2 : f + (k + 1) = (f + k) + 1 := by omega
    rw [h2, globMatchF_succ (f + k) p s (by omega), ih f p s h]

theorem globMatchF_eq_globMatch (f : Nat) (p s : List Char)
    (h : p.length + s.length < f) : globMatchF f p s = globMatch p s := by
  unfold globMatch
  have h2 : f = (p.length + s.length + 1) + (f - (p.length + s.length + 1)) :=
    by omega
  rw [h2, globMatchF_stable _ _ p s (by omega)]

theorem globMatch_nil_pat (s : List Char) : globMatch [] s = s.isEmpty := by
  unfold globMatch
  rw [show ([] : List Char).length + s.length + 1 = s.length + 1 from by simp]
  exact globMatchF_nil_eq s.length s

theorem globMatch_cons (c : Char) (q s : List Char) :
    globMatch (c :: q) s =
      (if c = '*' then
        globMatch q s ||
          (match s with
           | [] => false
           | _ :: s' => globMatch (c :: q) s')
      else if c = '?' then
        (match s with
         | [] => false
         | _ :: s' => globMatch q s')
      else if c = '[' then
        (match classScan q with
         | none =>
           match s with
           | c' :: s' => if c' = '[' then globMatch q s' else false
           | [] => false
         | some (stuff, rest) =>
           match s with
           | [] => false
           | c' :: s' => stuffMatches stuff c' && globMatch rest s')
      else
        (match s with
         | c' :: s' => (c' = c) && globMatch q s'
         | [] => false)) := by
  unfold globMatch
  rw [show (c :: q).length + s.length + 1 =
    ((c :: q).length + s.length) + 1 from rfl]
  rw [globMatchF_cons_eq]
  by_cases hstar : c = '*'
  · rw [if_pos hstar, if_pos hstar,
      globMatchF_eq_globMatch _ q s (by simp)]
    cases s with
    | nil => rfl
    | cons c1 s' =>
      dsimp only
      rw [globMatchF_eq_globMatch _ (c :: q) s' (by simp)]
      rfl
  · rw [if_neg hstar, if_neg hstar]
    by_cases hq : c = '?'
    · rw [if_pos hq, if_pos hq]
      cases s with
      | nil => rfl
      | cons c1 s' =>
        dsimp only
        rw [globMatchF_eq_globMatch _ q s' (by simp; omega)]
        rfl
    · rw [if_neg hq, if_neg hq]
      by_cases hb : c = '['
      · rw [if_pos hb, if_pos hb]
        rcases hscan : classScan q with _ | ⟨stuff, rest⟩
        · cases s with
          | nil => rfl
          | cons c1 s' =>
            dsimp only
            by_cases hc1 : c1 = '['
            · rw [if_pos hc1, if_pos hc1,
                globMatchF_eq_globMatch _ q s' (by simp; omega)]
              rfl
            · rw [if_neg hc1, if_neg hc1]
        · cases s with
          | nil => rfl
          | cons c1 s' =>
            dsimp only
            have hrest := classScan_length hscan
            rw [globMatchF_eq_globMatch _ rest s' (by simp; omega)]
            rfl
      · rw [if_neg hb, if_neg hb]
        cases s with
        | nil => rfl
        | cons c1 s' =>
          dsimp only
          rw [globMatchF_eq_globMatch _ q s' (by simp; omega)]
          rfl

theorem globMatch_star_all (s : List Char) : globMatch ['*'] s = true := by
  induction s with
  | nil => rfl
  | cons c s' ih =>
    rw [globMatch_cons]
    simp [ih]

theorem splitAtClose_append_star (q : List Char) :
    (splitAtClose q = none → splitAtClose (q ++ ['*']) = none) ∧
    (∀ st rest, splitAtClose q = some (st, rest) →
      splitAtClose (q ++ ['*']) = some (st, rest ++ ['*'])) := by
  induction q with
  | nil =>
    constructor
    · intro _
      decide
    · intro st rest h
      simp [splitAtClose] at h
  | cons c r ih =>
    by_cases hc : c = ']'
    · constructor
      · intro h
        simp [splitAtClose, hc] at h
      · intro st rest h
        simp [splitAtClose, hc] at h
        obtain ⟨h1, h2⟩ := h
        subst h1; subst h2
        simp [splitAtClose, hc]
    · constructor
      · intro h
        simp only [List.cons_append, splitAtClose, if_neg hc] at h ⊢
        simp only [List.append_eq] at h ⊢
        rcases hr : splitAtClose r with _ | ⟨st0, rest0⟩ <;> rw [hr] at h
        · rw [ih.1 hr]
        · simp at h
      · intro st rest h
        simp only [List.cons_append, splitAtClose, if_neg hc] at h ⊢
        simp only [List.append_eq] at h ⊢
        rcases hr : splitAtClose r with _ | ⟨st0, rest0⟩ <;> rw [hr] at h
        · simp at h
        · simp at h
          rw [ih.2 st0 rest0 hr]
          simp [← h.1, ← h.2]

theorem classScan_append_star_aux (pre t : List Char) :
    ((match splitAtClose t with
      | some (st, rest) => some (pre ++ st, rest)
      | none => none) = (none : Option (List Char × List Char)) →
     (match splitAtClose (t ++ ['*']) with
      | some (st, rest) => some (pre ++ st, rest)
      | none => none) = none) ∧
    (∀ st rest,
      (match splitAtClose t with
       | some (st0, rest0) => some (pre ++ st0, rest0)
       | none => none) = some (st, rest) →
      (match splitAtClose (t ++ ['*']) with
       | some (st0, rest0) => some (pre ++ st0, rest0)
       | none => none) = some (st, rest ++ ['*'])) := by
  constructor
  · intro h
    rcases hr : splitAtClose t with _ | ⟨st0, rest0⟩
    · rw [(splitAtClose_append_star t).1 hr]
    · rw [hr] at h
      simp at h
  · intro st rest h
    rcases hr : splitAtClose t with _ | ⟨st0, rest0⟩
    · rw [hr] at h
      simp at h
    · rw [hr] at h
      rw [(splitAtClose_append_star t).2 st0 rest0 hr]
      simp at h ⊢
      exact ⟨h.1, by rw [h.2]⟩

theorem classScan_cons_close (r : List Char) :
    classScan (']' :: r) =
      match splitAtClose r with
      | some (st, rest) => some (']' :: st, rest)
      | none => none := rfl

theorem classScan_bang_close (r : List Char) :
    classScan ('!' :: ']' :: r) =
      match splitAtClose r with
      | some (st, rest) => some ('!' :: ']' :: st, rest)
      | none => none := rfl

theorem classScan_cons_other (c : Char) (r : List Char)
    (h1 : c ≠ '!') (h2 : c ≠ ']') :
    classScan (c :: r) =
      match splitAtClose (c :: r) with
      | some (st, rest) => some (st, rest)
      | none => none := by
  simp [classScan, h1, h2]

theorem classScan_bang_other (d : Char) (r : List Char) (hd : d ≠ ']') :
    classScan ('!' :: d :: r) =
      match splitAtClose (d :: r) with
      | some (st, rest) => some ('!' :: st, rest)
      | none => none := by
  simp [classScan, hd]

theorem classScan_append_star (q : List Char) :
    (classScan q = none → classScan (q ++ ['*']) = none) ∧
    (∀ st rest, classScan q = some (st, rest) →
      classScan (q ++ ['*']) = some (st, rest ++ ['*'])) := by
  rcases q with _ | ⟨c, r⟩
  · constructor
    · intro _
      decide
    · intro st rest h
      simp [classScan, splitAtClose] at h
  · by_cases hbang : c = '!'
    · subst hbang
      rcases r with _ | ⟨d, r2⟩
      · constructor
        · intro _
          decide
        · intro st rest h
          simp [classScan, splitAtClose] at h
      · by_cases hd : d = ']'
        · subst hd
          constructor
          · intro h
            rw [classScan_bang_close] at h
            rw [List.cons_append, List.cons_append, classScan_bang_close]
            exact (classScan_append_star_aux ['!', ']'] r2).1 h
          · intro st rest h
            rw [classScan_bang_close] at h
            rw [List.cons_append, List.cons_append, classScan_bang_close]
            exact (classScan_append_star_aux ['!', ']'] r2).2 st rest h
        · constructor
          · intro h
            rw [classScan_bang_other d r2 hd] at h
            rw [List.cons_append, List.cons_append,
              classScan_bang_other d (r2 ++ ['*']) hd, ← List.cons_append]
            exact (classScan_append_star_aux ['!'] (d :: r2)).1 h
          · intro st rest h
            rw [classScan_bang_other d r2 hd] at h
            rw [List.cons_append, List.cons_append,
              classScan_bang_other d (r2 ++ ['*']) hd, ← List.cons_append]
            exact (classScan_append_star_aux ['!'] (d :: r2)).2 st rest h
    · by_cases hc : c = ']'
      · subst hc
        constructor
        · intro h
          rw [classScan_cons_close] at h
          rw [List.cons_append, classScan_cons_close]
          exact (classScan_append_star_aux [']'] r).1 h
        · intro st rest h
          rw [classScan_cons_close] at h
          rw [List.cons_append, classScan_cons_close]
          exact (classScan_append_star_aux [']'] r).2 st rest h
      · constructor
        · intro h
          rw [classScan_cons_other c r hbang hc] at h
          rw [List.cons_append, classScan_cons_other c (r ++ ['*']) hbang hc,
            ← List.cons_append]
          exact (classScan_append_star_aux [] (c :: r)).1 h
        · intro st rest h
          rw [classScan_cons_other c r hbang hc] at h
          rw [List.cons_append, classScan_cons_other c (r ++ ['*']) hbang hc,
            ← List.cons_append]
          exact (classScan_append_star_aux [] (c :: r)).2 st rest h

theorem globMatch_append_star : ∀ (n : Nat) (p s1 : List Char),
    p.length + s1.length ≤ n → globMatch p s1 = true →
    ∀ s2, globMatch (p ++ ['*']) (s1 ++ s2) = true := by
  intro n
  induction n with
  | zero =>
    intro p s1 hle h s2
    have hp : p = [] := List.eq_nil_of_length_eq_zero (by omega)
    have hs : s1 = [] := List.eq_nil_of_length_eq_zero (by omega)
    subst hp; subst hs
    exact globMatch_star_all s2
  | succ n ih =>
    intro p s1 hle h s2
    rcases p with _ | ⟨c, q⟩
    · rw [globMatch_nil_pat] at h
      have hs : s1 = [] := by
        rcases s1 with _ | ⟨d, s1x⟩
        · rfl
        · simp at h
      subst hs
      exact globMatch_star_all s2
    · rw [globMatch_cons] at h
      rw [List.cons_append, globMatch_cons]
      by_cases hstar : c = '*'
      · subst hstar
        rw [if_pos rfl] at h ⊢
        simp only [Bool.or_eq_true] at h
        rcases h with h1 | h2
        · have h3 := ih q s1 (by simp at hle ⊢; omega) h1 s2
          rw [h3]
          simp
        · rcases s1 with _ | ⟨d, s1x⟩
          · simp at h2
          · have hms : globMatch ('*' :: q) s1x = true := h2
            have h3 := ih ('*' :: q) s1x (by simp at hle ⊢; omega) hms s2
            simp only [Bool.or_eq_true]
            right
            rw [List.cons_append]
            show globMatch ('*' :: (q ++ ['*'])) (s1x ++ s2) = true
            simpa using h3
      · by_cases hques : c = '?'
        · subst hques
          rw [if_neg (by decide), if_pos rfl] at h ⊢
          rcases s1 with _ | ⟨d, s1x⟩
          · simp at h
          · have hms : globMatch q s1x = true := h
            have h3 := ih q s1x (by simp at hle ⊢; omega) hms s2
            rw [List.cons_append]
            show globMatch (q ++ ['*']) (s1x ++ s2) = true
            exact h3
        · by_cases hbr : c = '['
          · subst hbr
            rw [if_neg (by decide), if_neg (by decide), if_pos rfl] at h ⊢
            rcases hscan : classScan q with _ | ⟨stuff, rest⟩
            · rw [hscan] at h
              rw [(classScan_append_star q).1 hscan]
              rcases s1 with _ | ⟨d, s1x⟩
              · simp at h
              · dsimp only at h
                by_cases hd : d = '['
                · rw [if_pos hd] at h
                  have h3 := ih q s1x (by simp at hle ⊢; omega) h s2
                  rw [List.cons_append]
                  show (if d = '[' then globMatch (q ++ ['*']) (s1x ++ s2)
                    else false) = true
                  rw [if_pos hd]
                  exact h3
                · rw [if_neg hd] at h
                  simp at h
            · rw [hscan] at h
              rw [(classScan_append_star q).2 stuff rest hscan]
              rcases s1 with _ | ⟨d, s1x⟩
              · simp at h
              · dsimp only at h
                simp only [Bool.and_eq_true] at h
                rcases h with ⟨hm, hg⟩
                have hlt := classScan_length hscan
                have h3 := ih rest s1x (by simp at hle ⊢; omega) hg s2
                rw [List.cons_append]
                show (stuffMatches stuff d &&
                  globMatch (rest ++ ['*']) (s1x ++ s2)) = true
                simp only [Bool.and_eq_true]
                exact ⟨hm, h3⟩
          · rw [if_neg hstar, if_neg hques, if_neg hbr] at h ⊢
            rcases s1 with _ | ⟨d, s1x⟩
            · simp at h
            · dsimp only at h
              simp only [Bool.and_eq_true] at h
              rcases h with ⟨hm, hg⟩
              have h3 := ih q s1x (by simp at hle ⊢; omega) hg s2
              rw [List.cons_append]
              show ((d = c : Bool) && globMatch (q ++ ['*']) (s1x ++ s2)) = true
              simp only [Bool.and_eq_true]
              exact ⟨hm, h3⟩

/-- C10: every skip-list rule matches as a prefix glob. `__gen_regex`
appends a trailing `*` to the normalized pattern before compiling it
with `fnmatch.translate`, so whenever the normalized pattern of a rule
line matches some text `s1`, the compiled rule pattern matches every
extension `s1 ++ s2` of it; in particular the minus-sign rule with
pattern `/dir/a.c` also skips the path `/dir/a.cpp`. -/
theorem claim_C10 :
    (∀ (line : String) (s1 s2 : List Char),
      globMatch (pyNormpathL (pyStripL (line.toList.drop 1))) s1 = true →
      globMatch (genRegexPattern line) (s1 ++ s2) = true) ∧
    shouldSkip (mkSkipRules ["-/dir/a.c"]) "/dir/a.cpp" = true := by
  constructor
  · intro line s1 s2 h
    exact globMatch_append_star
      ((pyNormpathL (pyStripL (line.toList.drop 1))).length + s1.length)
      (pyNormpathL (pyStripL (line.toList.drop 1))) s1 (le_refl _) h s2
  · decide

/-- Witness for C10: the normalized pattern of the minus-sign rule line
with pattern `/dir/a.c` matches `/dir/a.c`, and the compiled rule
pattern then matches the extended path `/dir/a.cpp`. -/
theorem claim_C10_witness :
    globMatch (pyNormpathL (pyStripL (("-/dir/a.c" : String).toList.drop 1)))
      ("/dir/a.c" : String).toList = true ∧
    globMatch (genRegexPattern "-/dir/a.c")
      (("/dir/a.c" : String).toList ++ ("pp" : String).toList) = true :=
  ⟨by decide,
    claim_C10.1 "-/dir/a.c" ("/dir/a.c" : String).toList
      ("pp" : String).toList (by decide)⟩
